import Mathlib

/-!
Verification of the CAMB theory wrapper (`cobaya/theories/camb/camb.py`):
a shallow embedding of its parameter-state memoization cache (`compute`,
`current_state`, `initialise`), requirement aggregation (`needs`), and
spectrum normalization (`get_cl`), followed by theorems about the claims.

Python dictionaries of parameter values are modelled as `String → Option Int`
maps for the component-owned `fixed`/`precision` dictionaries, and the
sampled-parameter assignment passed to `compute` is an abstract type `P`
with decidable equality (Python compares it with structural `==`).
The external CAMB engine is abstract: its parameter objects, result objects
and power-spectrum arrays are type parameters, and its entry points
(`set_params`, `get_results`, `get_cmb_power_spectra`, attribute access)
are fields of an `Engine` record; fallible entry points return `Except`.
Stateful Python code is embedded by explicit state passing: every operation
returns the mutated component state, including on the error paths, exactly
at the point where the Python exception would propagate.
Floating-point arrays in `get_cl` are modelled as exact field elements, with
`np.pi` abstracted as a field-element parameter.
-/

namespace CambSpec

/-- A Python dict from parameter names to numeric values, as a partial map. -/
def PDict : Type := String → Option Int

/-- `base.update(upd)` on Python dicts: keys of `upd` win, other keys kept. -/
def dupdate (base upd : PDict) : PDict :=
  fun k => match upd k with
  | some v => some v
  | none => base k

/-- `d[k] = v` on a Python dict. -/
def dinsert (d : PDict) (k : String) (v : Int) : PDict :=
  fun q => if q = k then some v else d q

/-- The empty dict. -/
def dempty : PDict := fun _ => none

/-- The errors the wrapper can surface (all are fatal exceptions in the
source: `HandledException` or a re-raised engine exception). -/
inductive CErr where
  | config
  | computation
  | missingDerived
  | typeErr
  | unsupportedReq
deriving DecidableEq

/-- One cache slot, as built in `initialise`:
`{"CAMBparams": None, "CAMBresults": None, "powers": None, "params": None,
"derived": None, "last": 0}`. -/
structure Slot (P CP RES POW : Type) where
  CAMBparams : Option CP
  CAMBresults : Option RES
  powers : Option POW
  params : Option P
  derived : Option (List Int)
  last : Int
deriving DecidableEq

/-- The mutable state of the `camb` theory component: its `fixed` and
`precision` dicts, the list `self.derived` of derived-parameter names, and
the slot list `self.states`. -/
structure CambState (P CP RES POW : Type) where
  fixed : PDict
  precision : PDict
  derivedNames : List String
  states : List (Slot P CP RES POW)

/-- The external CAMB engine, at its interface boundary; `set_params` and
`get_results` may raise. -/
structure Engine (CP RES POW : Type) where
  set_params : PDict → Except Unit CP
  get_results : CP → Except Unit RES
  get_cmb_power_spectra : RES → CP → POW
  getattr : CP → String → Option Int

/-- An engine none of whose entry points fail, for stating success-path
properties. -/
structure EngineOk (CP RES POW : Type) where
  set_params : PDict → CP
  get_results : CP → RES
  get_cmb_power_spectra : RES → CP → POW
  getattr : CP → String → Int

/-- View an always-succeeding engine as a fallible one. -/
def EngineOk.toEngine {CP RES POW : Type} (E : EngineOk CP RES POW) :
    Engine CP RES POW where
  set_params := fun a => Except.ok (E.set_params a)
  get_results := fun c => Except.ok (E.get_results c)
  get_cmb_power_spectra := E.get_cmb_power_spectra
  getattr := fun c k => some (E.getattr c k)

/-- What one call to `compute` produced: the post-call component state
(reflecting all mutations made up to a raise point, if any), the exception
raised (if any), whether the external engine was invoked, the slot index
used, and the derived-parameter mapping returned through the `derived`
in/out argument (when requested). -/
structure ComputeOut (P CP RES POW : Type) where
  st : CambState P CP RES POW
  err : Option CErr
  engineCalled : Bool
  i_state : Nat
  derivedOut : Option (List (String × Int))

/-- Python's `max(l)` on a nonempty list of ints (junk value 0 on `[]`,
which never occurs: the slot list always has 3 elements). -/
def listMax : List Int → Int
  | [] => 0
  | [a] => a
  | a :: b :: t => max a (listMax (b :: t))

/-- Python's `min(l)` on a nonempty list of ints. -/
def listMin : List Int → Int
  | [] => 0
  | [a] => a
  | a :: b :: t => min a (listMin (b :: t))

/-- Python's `l.index(x)`: index of the first occurrence of `x` (junk value
`l.length` when absent, in which case Python would raise). -/
def idxOfVal (x : Int) : List Int → Nat
  | [] => 0
  | a :: t => if a = x then 0 else idxOfVal x t + 1

/-- `lasts.index(min(lasts))`: first index holding the minimum. -/
def idxOfMin (l : List Int) : Nat := idxOfVal (listMin l) l

/-- `lasts.index(max(lasts))`: first index holding the maximum. -/
def idxOfMax (l : List Int) : Nat := idxOfVal (listMax l) l

/-- The Python generator `(i for i in range(n) if self.states[i]["params"]
== params_values_dict).next()`: index of the first slot satisfying the
predicate, or `none` (a `StopIteration`). -/
def firstMatch {A : Type} (p : A → Bool) : List A → Option Nat
  | [] => none
  | a :: t => if p a then some 0 else (firstMatch p t).map (· + 1)

variable {P CP RES POW : Type} [DecidableEq P]

/-- The list `lasts = [self.states[i]["last"] for i in range(self.n_states)]`. -/
def CambState.lasts (st : CambState P CP RES POW) : List Int :=
  st.states.map Slot.last

/-- In-place mutation of slot `i` (`self.states[i][...] = ...`). -/
def updSlot (st : CambState P CP RES POW) (i : Nat)
    (f : Slot P CP RES POW → Slot P CP RES POW) : CambState P CP RES POW :=
  match st.states[i]? with
  | some s => { st with states := st.states.set i (f s) }
  | none => st

namespace camb

/-- `camb.set(params_values_dict, i_state)` (source lines 204-220):
`args = self.fixed` ALIASES the fixed dict, so the two `update` calls
mutate `self.fixed` itself; the slot's `params` key is stored BEFORE the
engine's `set_params` is attempted, and `CAMBparams` is stored only on
success.  Returns the engine parameter object or the raised error, paired
with the mutated state. -/
def set (eng : Engine CP RES POW) (toDict : P → PDict) (p : P) (i : Nat)
    (st : CambState P CP RES POW) :
    Except CErr CP × CambState P CP RES POW :=
  let args := dupdate (dupdate st.fixed (toDict p)) st.precision
  let st1 := updSlot { st with fixed := args } i
    (fun s => { s with params := some p })
  match eng.set_params args with
  | Except.error _ => (Except.error CErr.config, st1)
  | Except.ok cp => (Except.ok cp,
      updSlot st1 i (fun s => { s with CAMBparams := some cp }))

/-- The loop body of `camb.get_derived` (source lines 267-279): for each
derived name in order, fetch the attribute from the engine parameter
object; a `None` value raises (`MissingDerivedParameter`). -/
def get_derived (eng : Engine CP RES POW) (names : List String) (cp : CP) :
    Except CErr (List Int) :=
  match names with
  | [] => Except.ok []
  | n :: t =>
    match eng.getattr cp n with
    | none => Except.error CErr.missingDerived
    | some v =>
      match get_derived eng t cp with
      | Except.error e => Except.error e
      | Except.ok vs => Except.ok (v :: vs)

/-- The recency update at the end of `compute` (source lines 249-252):
every slot's `last` is decreased by `max(lasts)` — with `lasts` as captured
at the START of the call — then the touched slot's `last` is set to 1. -/
def touch (st : CambState P CP RES POW) (ls : List Int) (w : Nat) :
    CambState P CP RES POW :=
  let M := listMax ls
  let stm := { st with
    states := st.states.map (fun s => { s with last := s.last - M }) }
  updSlot stm w (fun s => { s with last := 1 })

/-- `camb.compute(derived, **params_values_dict)` (source lines 222-252).
`wantDerived` models `derived == {}` (the caller passed an empty dict to
request derived parameters).  On a hit the stored slot is reused without
touching the engine (a stored `derived` of `None` would make Python's
`zip` raise a `TypeError` before the recency update).  On a miss the victim
is the first slot with minimum `last`; `set` is called, then
`get_results`, then `get_cmb_power_spectra`, then (if requested) the
derived values; an engine failure propagates at exactly that point,
leaving all mutations made so far in place. -/
def compute (eng : Engine CP RES POW) (toDict : P → PDict)
    (wantDerived : Bool) (p : P) (st : CambState P CP RES POW) :
    ComputeOut P CP RES POW :=
  let ls := st.lasts
  match firstMatch (fun s => s.params == some p) st.states with
  | some i =>
      if wantDerived then
        match (st.states[i]?).bind Slot.derived with
        | some L =>
            { st := touch st ls i, err := none, engineCalled := false,
              i_state := i, derivedOut := some (st.derivedNames.zip L) }
        | none =>
            { st := st, err := some CErr.typeErr, engineCalled := false,
              i_state := i, derivedOut := none }
      else
        { st := touch st ls i, err := none, engineCalled := false,
          i_state := i, derivedOut := none }
  | none =>
      let i := idxOfMin ls
      match set eng toDict p i st with
      | (Except.error e, st1) =>
          { st := st1, err := some e, engineCalled := true, i_state := i,
            derivedOut := none }
      | (Except.ok cp, st1) =>
          match eng.get_results cp with
          | Except.error _ =>
              { st := st1, err := some CErr.computation,
                engineCalled := true, i_state := i, derivedOut := none }
          | Except.ok res =>
              let st2 := updSlot st1 i
                (fun s => { s with CAMBresults := some res })
              let pw := eng.get_cmb_power_spectra res cp
              let st3 := updSlot st2 i (fun s => { s with powers := some pw })
              if wantDerived then
                match get_derived eng st.derivedNames cp with
                | Except.error e =>
                    { st := st3, err := some e, engineCalled := true,
                      i_state := i, derivedOut := none }
                | Except.ok L =>
                    let st4 := updSlot st3 i
                      (fun s => { s with derived := some L })
                    { st := touch st4 ls i, err := none,
                      engineCalled := true, i_state := i,
                      derivedOut := some (st.derivedNames.zip L) }
              else
                { st := touch st3 ls i, err := none, engineCalled := true,
                  i_state := i, derivedOut := none }

/-- `camb.current_state(self)` (source lines 200-202): the slot at the
first index holding the maximum `last`. -/
def current_state (st : CambState P CP RES POW) :
    Option (Slot P CP RES POW) :=
  st.states[idxOfMax st.lasts]?

/-- A fresh slot, as written by `initialise`. -/
def initSlot : Slot P CP RES POW :=
  { CAMBparams := none, CAMBresults := none, powers := none, params := none,
    derived := none, last := 0 }

/-- The cache construction in `camb.initialise` (source lines 188-191):
`n_states = 3` empty slots, all with `last = 0`. -/
def initialise (fixed precision : PDict) (derivedNames : List String) :
    CambState P CP RES POW :=
  { fixed := fixed, precision := precision, derivedNames := derivedNames,
    states := List.replicate 3 initSlot }

/-- `camb.needs(arguments)` (source lines 254-265): iterate over the
announced requirements; `l_max` merges by
`self.fixed["lmax"] = max(v, self.fixed.get("lmax", 0))`; `Cl` is accepted
with no effect; anything else raises. -/
def needs (st : CambState P CP RES POW) (arguments : List (String × Int)) :
    Except CErr (CambState P CP RES POW) :=
  arguments.foldlM (fun s kv =>
    if kv.1 = "l_max" then
      Except.ok { s with
        fixed := dinsert s.fixed "lmax" (max kv.2 ((s.fixed "lmax").getD 0)) }
    else if kv.1 = "Cl" then Except.ok s
    else Except.error CErr.unsupportedReq) st

end camb

/-- A sequence of `compute` calls, keeping only the evolving state. -/
def computeSeq (eng : Engine CP RES POW) (toDict : P → PDict)
    (wantDerived : Bool) (ps : List P) (st : CambState P CP RES POW) :
    CambState P CP RES POW :=
  ps.foldl (fun s q => (camb.compute eng toDict wantDerived q s).st) st

/-! ### The spectra instantiation for `get_cl` -/

/-- One row of the `powers["total"]` array: the four spectrum columns at a
fixed multipole (column 0 = TT, 1 = EE, 2 = BB, 3 = TE). -/
structure ClRow (F : Type) where
  c0 : F
  c1 : F
  c2 : F
  c3 : F
deriving DecidableEq

/-- The engine's power-spectrum output, exposing its `"total"` array. -/
structure Powers (F : Type) where
  total : List (ClRow F)
deriving DecidableEq

/-- The engine parameter object, exposing its `TCMB` attribute. -/
structure CParams (F : Type) where
  TCMB : F
deriving DecidableEq

/-- The dict returned by `get_cl`: multipole indices and the four channels. -/
structure Cl (F : Type) where
  ell : List Nat
  tt : List F
  te : List F
  ee : List F
  bb : List F
deriving DecidableEq

/-- The per-channel loop body of `get_cl` (source lines 292-295):
`cl[key][2:] = cl[key][2:] / ell_factor[2:] * (T*1.e6)**2` with
`ell_factor = ell*(ell+1)/(2*np.pi)`; entries at `ell = 0, 1` stay as they
are.  `piv` stands for the constant `np.pi`. -/
def normalizeChannel {F : Type} [Field F] (piv T : F) (xs : List F) :
    List F :=
  xs.enum.map (fun ic =>
    if ic.1 < 2 then ic.2
    else ic.2 / (((ic.1 : F) * ((ic.1 : F) + 1)) / (2 * piv)) *
      (T * 1000000) ^ 2)

/-- `camb.get_cl(self)` (source lines 281-296): read the current slot,
deep-copy its `powers["total"]` array (so all mutations below act on the
copy, never on the cached array), split the columns into the channel dict,
and rescale every channel in place from `ell = 2` on.  Returns the channel
dict paired with the component state as left by the call; `none` models
the `TypeError` a fresh slot (`powers` or `CAMBparams` still `None`) would
raise. -/
def camb.get_cl {P RES F : Type} [Field F] (piv : F)
    (st : CambState P (CParams F) RES (Powers F)) :
    Option (Cl F × CambState P (CParams F) RES (Powers F)) :=
  match camb.current_state st with
  | none => none
  | some cur =>
    match cur.powers, cur.CAMBparams with
    | some pw, some cp =>
        let cl_camb := pw.total
        let T := cp.TCMB
        some ({ ell := List.range cl_camb.length,
                tt := normalizeChannel piv T (cl_camb.map ClRow.c0),
                te := normalizeChannel piv T (cl_camb.map ClRow.c3),
                ee := normalizeChannel piv T (cl_camb.map ClRow.c1),
                bb := normalizeChannel piv T (cl_camb.map ClRow.c2) }, st)
    | _, _ => none

/-- The list of stored keys, slot by slot (a view used to state cache
properties). -/
def paramsView {P CP RES POW : Type} (st : CambState P CP RES POW) :
    List (Option P) :=
  st.states.map Slot.params

/-- The merged configuration a miss assembles:
`fixed.update(params); fixed.update(precision)`. -/
def argsOf {P CP RES POW : Type} (toDict : P → PDict) (p : P)
    (st : CambState P CP RES POW) : PDict :=
  dupdate (dupdate st.fixed (toDict p)) st.precision

/-- The engine parameter object a successful miss builds. -/
def cpOf {P CP RES POW : Type} (E : EngineOk CP RES POW)
    (toDict : P → PDict) (p : P) (st : CambState P CP RES POW) : CP :=
  E.set_params (argsOf toDict p st)

/-- The results artifact a successful miss stores. -/
def resOf {P CP RES POW : Type} (E : EngineOk CP RES POW)
    (toDict : P → PDict) (p : P) (st : CambState P CP RES POW) : RES :=
  E.get_results (cpOf E toDict p st)

/-- The raw spectra a successful miss stores. -/
def pwOf {P CP RES POW : Type} (E : EngineOk CP RES POW)
    (toDict : P → PDict) (p : P) (st : CambState P CP RES POW) : POW :=
  E.get_cmb_power_spectra (resOf E toDict p st) (cpOf E toDict p st)

/-- The derived values a successful miss stores (in declaration order). -/
def LOf {P CP RES POW : Type} (E : EngineOk CP RES POW)
    (toDict : P → PDict) (p : P) (st : CambState P CP RES POW) :
    List Int :=
  st.derivedNames.map (fun n => E.getattr (cpOf E toDict p st) n)

/-! ### Concrete fixtures used by the witnesses -/

/-- A concrete sampled-parameter assignment: the single parameter `"x"`. -/
def toDictW : Nat → PDict := fun n => fun k => if k = "x" then some n else none

/-- A concrete always-succeeding engine over `Nat` handles: the parameter
object is the value of `"x"`, results and spectra echo it, every attribute
resolves. -/
def EW : EngineOk Nat Nat Nat where
  set_params := fun a => ((a "x").getD 0).toNat
  get_results := fun c => c
  get_cmb_power_spectra := fun r _ => r
  getattr := fun c _ => (c : Int)

/-- A concrete engine whose computation phase fails exactly on the
parameter object built from `"x" = 4`. -/
def EBad : Engine Nat Nat Nat where
  set_params := fun a => Except.ok ((a "x").getD 0).toNat
  get_results := fun c => if c = 4 then Except.error () else Except.ok c
  get_cmb_power_spectra := fun r _ => r
  getattr := fun c _ => some (c : Int)

/-- The component state right after `initialise`, over `Nat` handles. -/
def stW : CambState Nat Nat Nat Nat := camb.initialise dempty dempty []

/-- `TCMB = 2.7255` Kelvin, as an exact rational. -/
def TW : ℚ := 27255 / 10000

/-- A stand-in value for `np.pi` in the witnesses. -/
def pivW : ℚ := 355 / 113

/-- A concrete three-row raw spectrum (multipoles 0, 1, 2). -/
def powersW : Powers ℚ := ⟨[⟨5, 6, 7, 8⟩, ⟨9, 10, 11, 12⟩, ⟨1, 2, 3, 4⟩]⟩

/-- A populated slot carrying `powersW` and `TCMB = TW`. -/
def slotW : Slot Nat (CParams ℚ) Nat (Powers ℚ) :=
  ⟨some ⟨TW⟩, none, some powersW, some 0, none, 1⟩

/-- A component state whose current slot is `slotW`. -/
def stCl : CambState Nat (CParams ℚ) Nat (Powers ℚ) :=
  ⟨dempty, dempty, [], [slotW]⟩

/-- The channel dict `get_cl` produces from `stCl`. -/
def clW : Cl ℚ :=
  ⟨[0, 1, 2],
   normalizeChannel pivW TW [5, 9, 1],
   normalizeChannel pivW TW [8, 12, 4],
   normalizeChannel pivW TW [6, 10, 2],
   normalizeChannel pivW TW [7, 11, 3]⟩

/-! ### Helper lemmas about the list primitives -/

theorem le_listMax {x : Int} : ∀ {l : List Int}, x ∈ l → x ≤ listMax l := by
  intro l
  induction l with
  | nil => simp
  | cons a t ih =>
    intro h
    cases t with
    | nil =>
      simp only [List.mem_singleton] at h
      simp [listMax, h]
    | cons b t2 =>
      rw [listMax]
      rcases List.mem_cons.mp h with h1 | h2
      · exact h1 ▸ le_max_left _ _
      · exact le_trans (ih h2) (le_max_right _ _)

theorem listMin_le {x : Int} : ∀ {l : List Int}, x ∈ l → listMin l ≤ x := by
  intro l
  induction l with
  | nil => simp
  | cons a t ih =>
    intro h
    cases t with
    | nil =>
      simp only [List.mem_singleton] at h
      simp [listMin, h]
    | cons b t2 =>
      rw [listMin]
      rcases List.mem_cons.mp h with h1 | h2
      · exact h1 ▸ min_le_left _ _
      · exact le_trans (min_le_right _ _) (ih h2)

theorem listMin_mem : ∀ {l : List Int}, l ≠ [] → listMin l ∈ l := by
  intro l
  induction l with
  | nil => simp
  | cons a t ih =>
    intro _
    cases t with
    | nil => simp [listMin]
    | cons b t2 =>
      rw [listMin]
      rcases min_choice a (listMin (b :: t2)) with h | h <;> rw [h]
      · exact List.mem_cons_self _ _
      · exact List.mem_cons_of_mem _ (ih (List.cons_ne_nil _ _))

theorem listMax_mem : ∀ {l : List Int}, l ≠ [] → listMax l ∈ l := by
  intro l
  induction l with
  | nil => simp
  | cons a t ih =>
    intro _
    cases t with
    | nil => simp [listMax]
    | cons b t2 =>
      rw [listMax]
      rcases max_choice a (listMax (b :: t2)) with h | h <;> rw [h]
      · exact List.mem_cons_self _ _
      · exact List.mem_cons_of_mem _ (ih (List.cons_ne_nil _ _))

theorem idxOfVal_lt_length {x : Int} :
    ∀ {l : List Int}, x ∈ l → idxOfVal x l < l.length := by
  intro l
  induction l with
  | nil => simp
  | cons a t ih =>
    intro h
    rw [idxOfVal]
    by_cases hax : a = x
    · simp [hax]
    · rcases List.mem_cons.mp h with h1 | h2
      · exact absurd h1.symm hax
      · simpa [hax] using ih h2

theorem getElem?_idxOfVal {x : Int} :
    ∀ {l : List Int}, x ∈ l → l[idxOfVal x l]? = some x := by
  intro l
  induction l with
  | nil => simp
  | cons a t ih =>
    intro h
    rw [idxOfVal]
    by_cases hax : a = x
    · simp [hax]
    · rcases List.mem_cons.mp h with h1 | h2
      · exact absurd h1.symm hax
      · simpa [hax] using ih h2

theorem idxOfVal_first {x : Int} :
    ∀ {l : List Int} {i : Nat}, l[i]? = some x →
      (∀ j, j < i → l[j]? ≠ some x) → idxOfVal x l = i := by
  intro l
  induction l with
  | nil => intro i hi _; simp at hi
  | cons a t ih =>
    intro i hi hfirst
    cases i with
    | zero =>
      simp only [List.getElem?_cons_zero, Option.some.injEq] at hi
      simp [idxOfVal, hi]
    | succ j =>
      have ha : a ≠ x := by
        intro hax
        exact hfirst 0 (Nat.succ_pos _) (by simp [hax])
      rw [idxOfVal, if_neg ha]
      have : idxOfVal x t = j := by
        refine ih (by simpa using hi) ?_
        intro k hk
        simpa using hfirst (k + 1) (by omega)
      omega

theorem firstMatch_eq_none_iff {A : Type} {p : A → Bool} :
    ∀ {l : List A}, firstMatch p l = none ↔ ∀ a ∈ l, p a = false := by
  intro l
  induction l with
  | nil => simp [firstMatch]
  | cons a t ih =>
    rw [firstMatch]
    by_cases hp : p a <;> simp [hp, ih]

theorem firstMatch_spec {A : Type} {p : A → Bool} :
    ∀ {l : List A} {i : Nat}, firstMatch p l = some i →
      ∃ a, l[i]? = some a ∧ p a = true := by
  intro l
  induction l with
  | nil => intro i h; simp [firstMatch] at h
  | cons a t ih =>
    intro i h
    rw [firstMatch] at h
    by_cases hp : p a
    · rw [if_pos hp] at h
      cases h
      exact ⟨a, by simp, hp⟩
    · rw [if_neg hp, Option.map_eq_some'] at h
      obtain ⟨j, hj, rfl⟩ := h
      obtain ⟨b, hb, hpb⟩ := ih hj
      exact ⟨b, by simpa using hb, hpb⟩

theorem firstMatch_lt_length {A : Type} {p : A → Bool} {l : List A}
    {i : Nat} (h : firstMatch p l = some i) : i < l.length := by
  obtain ⟨a, ha, -⟩ := firstMatch_spec h
  by_contra hle
  rw [List.getElem?_eq_none (by omega)] at ha
  exact Option.noConfusion ha

theorem firstMatch_eq_some_of {A : Type} {p : A → Bool} :
    ∀ {l : List A} {i : Nat} {a : A}, l[i]? = some a → p a = true →
      (∀ j b, j < i → l[j]? = some b → p b = false) →
      firstMatch p l = some i := by
  intro l
  induction l with
  | nil => intro i a hi _ _; simp at hi
  | cons c t ih =>
    intro i a hi hpa hfirst
    cases i with
    | zero =>
      simp only [List.getElem?_cons_zero, Option.some.injEq] at hi
      rw [firstMatch, if_pos (hi ▸ hpa)]
    | succ j =>
      have hc : p c = false := hfirst 0 c (Nat.succ_pos _) (by simp)
      rw [firstMatch, if_neg (by simp [hc])]
      have : firstMatch p t = some j := by
        refine ih (by simpa using hi) hpa ?_
        intro k b hk hb
        exact hfirst (k + 1) b (by omega) (by simpa using hb)
      rw [this]
      rfl

/-! ### State-manipulation lemmas -/

set_option linter.unusedSectionVars false

section StateLemmas

variable {P CP RES POW : Type}

theorem lasts_length (st : CambState P CP RES POW) :
    st.lasts.length = st.states.length := List.length_map _ _

theorem lasts_getElem? (st : CambState P CP RES POW) (j : Nat) :
    st.lasts[j]? = (st.states[j]?).map Slot.last := by
  simp [CambState.lasts]

theorem updSlot_length (st : CambState P CP RES POW) (i : Nat)
    (f : Slot P CP RES POW → Slot P CP RES POW) :
    (updSlot st i f).states.length = st.states.length := by
  unfold updSlot
  cases h : st.states[i]? <;> simp

theorem updSlot_fixed (st : CambState P CP RES POW) (i : Nat)
    (f : Slot P CP RES POW → Slot P CP RES POW) :
    (updSlot st i f).fixed = st.fixed := by
  unfold updSlot
  cases h : st.states[i]? <;> rfl

theorem updSlot_precision (st : CambState P CP RES POW) (i : Nat)
    (f : Slot P CP RES POW → Slot P CP RES POW) :
    (updSlot st i f).precision = st.precision := by
  unfold updSlot
  cases h : st.states[i]? <;> rfl

theorem updSlot_derivedNames (st : CambState P CP RES POW) (i : Nat)
    (f : Slot P CP RES POW → Slot P CP RES POW) :
    (updSlot st i f).derivedNames = st.derivedNames := by
  unfold updSlot
  cases h : st.states[i]? <;> rfl

theorem updSlot_getElem?_self (st : CambState P CP RES POW) (i : Nat)
    (f : Slot P CP RES POW → Slot P CP RES POW)
    (h : i < st.states.length) :
    (updSlot st i f).states[i]? = (st.states[i]?).map f := by
  unfold updSlot
  cases hs : st.states[i]? with
  | none =>
    rw [List.getElem?_eq_getElem h] at hs
    exact Option.noConfusion hs
  | some s => simp [List.getElem?_set_self', hs]

theorem updSlot_getElem?_ne (st : CambState P CP RES POW) (i : Nat)
    (f : Slot P CP RES POW → Slot P CP RES POW) {j : Nat} (hne : j ≠ i) :
    (updSlot st i f).states[j]? = st.states[j]? := by
  unfold updSlot
  cases hs : st.states[i]? with
  | none => rfl
  | some s => simp [List.getElem?_set_ne (Ne.symm hne)]

theorem lasts_updSlot_keep (st : CambState P CP RES POW) (i : Nat)
    {f : Slot P CP RES POW → Slot P CP RES POW}
    (hf : ∀ s, (f s).last = s.last) :
    (updSlot st i f).lasts = st.lasts := by
  unfold updSlot
  cases hs : st.states[i]? with
  | none => rfl
  | some s =>
    simp only [CambState.lasts]
    apply List.ext_getElem?
    intro j
    by_cases hij : j = i
    · subst hij
      have hj : j < st.states.length := by
        by_contra hle
        rw [List.getElem?_eq_none (by omega)] at hs
        exact Option.noConfusion hs
      rw [List.getElem?_map, List.getElem?_map,
        List.getElem?_set_self', hs]
      simp [hf]
    · rw [List.getElem?_map, List.getElem?_map,
        List.getElem?_set_ne (Ne.symm hij)]

theorem touch_fixed (st : CambState P CP RES POW) (ls : List Int) (w : Nat) :
    (camb.touch st ls w).fixed = st.fixed := by
  unfold camb.touch
  rw [updSlot_fixed]

theorem touch_precision (st : CambState P CP RES POW) (ls : List Int)
    (w : Nat) : (camb.touch st ls w).precision = st.precision := by
  unfold camb.touch
  rw [updSlot_precision]

theorem touch_derivedNames (st : CambState P CP RES POW) (ls : List Int)
    (w : Nat) : (camb.touch st ls w).derivedNames = st.derivedNames := by
  unfold camb.touch
  rw [updSlot_derivedNames]

theorem touch_length (st : CambState P CP RES POW) (ls : List Int)
    (w : Nat) : (camb.touch st ls w).states.length = st.states.length := by
  unfold camb.touch
  rw [updSlot_length]
  simp

theorem touch_getElem?_self (st : CambState P CP RES POW) (ls : List Int)
    {w : Nat} (hw : w < st.states.length) :
    (camb.touch st ls w).states[w]? =
      (st.states[w]?).map (fun s => { s with last := 1 }) := by
  unfold camb.touch
  rw [updSlot_getElem?_self _ _ _ (by simpa using hw)]
  rw [List.getElem?_map]
  cases st.states[w]? <;> rfl

theorem touch_getElem?_ne (st : CambState P CP RES POW) (ls : List Int)
    {w j : Nat} (hj : j ≠ w) :
    (camb.touch st ls w).states[j]? =
      (st.states[j]?).map (fun s => { s with last := s.last - listMax ls }) := by
  unfold camb.touch
  rw [updSlot_getElem?_ne _ _ _ hj]
  simp

theorem lasts_touch (st : CambState P CP RES POW) (ls : List Int) {w : Nat}
    (hw : w < st.states.length) :
    (camb.touch st ls w).lasts =
      (st.lasts.map (fun t => t - listMax ls)).set w 1 := by
  apply List.ext_getElem?
  intro j
  by_cases hij : j = w
  · subst hij
    rw [lasts_getElem?, touch_getElem?_self st ls hw,
      List.getElem?_set_self', List.getElem?_map, lasts_getElem?,
      List.getElem?_eq_getElem hw]
    simp [Function.const]
  · rw [lasts_getElem?, touch_getElem?_ne st ls hij,
      List.getElem?_set_ne (Ne.symm hij), List.getElem?_map,
      lasts_getElem?]
    cases st.states[j]? <;> simp

end StateLemmas

/-! ### Branch equations for `compute` -/

section ComputeLemmas

variable {P CP RES POW : Type} [DecidableEq P]

theorem toEngine_set_params (E : EngineOk CP RES POW) (a : PDict) :
    E.toEngine.set_params a = Except.ok (E.set_params a) := rfl

theorem toEngine_get_results (E : EngineOk CP RES POW) (c : CP) :
    E.toEngine.get_results c = Except.ok (E.get_results c) := rfl

theorem toEngine_spectra (E : EngineOk CP RES POW) (r : RES) (c : CP) :
    E.toEngine.get_cmb_power_spectra r c = E.get_cmb_power_spectra r c := rfl

theorem toEngine_getattr (E : EngineOk CP RES POW) (c : CP) (k : String) :
    E.toEngine.getattr c k = some (E.getattr c k) := rfl

theorem get_derived_ok (E : EngineOk CP RES POW) (cp : CP) :
    ∀ names, camb.get_derived E.toEngine names cp =
      Except.ok (names.map (fun n => E.getattr cp n)) := by
  intro names
  induction names with
  | nil => rfl
  | cons n t ih => rw [camb.get_derived, ih]; rfl

theorem compute_hit_eq (eng : Engine CP RES POW) (toDict : P → PDict)
    (p : P) (st : CambState P CP RES POW) {i : Nat} {L : List Int}
    (hm : firstMatch (fun s => s.params == some p) st.states = some i)
    (hd : (st.states[i]?).bind Slot.derived = some L) :
    camb.compute eng toDict true p st =
      { st := camb.touch st st.lasts i, err := none, engineCalled := false,
        i_state := i, derivedOut := some (st.derivedNames.zip L) } := by
  unfold camb.compute
  rw [hm]
  simp only [eq_self_iff_true, if_true, hd]

theorem compute_hit_eq_noderived (eng : Engine CP RES POW)
    (toDict : P → PDict) (p : P) (st : CambState P CP RES POW) {i : Nat}
    (hm : firstMatch (fun s => s.params == some p) st.states = some i) :
    camb.compute eng toDict false p st =
      { st := camb.touch st st.lasts i, err := none, engineCalled := false,
        i_state := i, derivedOut := none } := by
  unfold camb.compute
  rw [hm]
  simp only [Bool.false_eq_true, if_false]

theorem compute_miss_eq (E : EngineOk CP RES POW) (toDict : P → PDict)
    (p : P) (st : CambState P CP RES POW)
    (hm : firstMatch (fun s => s.params == some p) st.states = none) :
    camb.compute E.toEngine toDict true p st =
      (let args := dupdate (dupdate st.fixed (toDict p)) st.precision
       let i := idxOfMin st.lasts
       let cp := E.set_params args
       let res := E.get_results cp
       let pw := E.get_cmb_power_spectra res cp
       let L := st.derivedNames.map (fun n => E.getattr cp n)
       let st1 := updSlot (updSlot { st with fixed := args } i
         (fun s => { s with params := some p })) i
         (fun s => { s with CAMBparams := some cp })
       let st2 := updSlot st1 i (fun s => { s with CAMBresults := some res })
       let st3 := updSlot st2 i (fun s => { s with powers := some pw })
       let st4 := updSlot st3 i (fun s => { s with derived := some L })
       { st := camb.touch st4 st.lasts i, err := none, engineCalled := true,
         i_state := i, derivedOut := some (st.derivedNames.zip L) }) := by
  unfold camb.compute
  rw [hm]
  unfold camb.set
  simp only [toEngine_set_params, toEngine_get_results, toEngine_spectra,
    get_derived_ok, eq_self_iff_true, if_true]

theorem compute_miss_eq_noderived (E : EngineOk CP RES POW)
    (toDict : P → PDict) (p : P) (st : CambState P CP RES POW)
    (hm : firstMatch (fun s => s.params == some p) st.states = none) :
    camb.compute E.toEngine toDict false p st =
      (let args := dupdate (dupdate st.fixed (toDict p)) st.precision
       let i := idxOfMin st.lasts
       let cp := E.set_params args
       let res := E.get_results cp
       let pw := E.get_cmb_power_spectra res cp
       let st1 := updSlot (updSlot { st with fixed := args } i
         (fun s => { s with params := some p })) i
         (fun s => { s with CAMBparams := some cp })
       let st2 := updSlot st1 i (fun s => { s with CAMBresults := some res })
       let st3 := updSlot st2 i (fun s => { s with powers := some pw })
       { st := camb.touch st3 st.lasts i, err := none, engineCalled := true,
         i_state := i, derivedOut := none }) := by
  unfold camb.compute
  rw [hm]
  unfold camb.set
  simp only [toEngine_set_params, toEngine_get_results, toEngine_spectra,
    Bool.false_eq_true, if_false]

theorem dupdate_some {b u : PDict} {k : String} {v : Int}
    (h : u k = some v) : dupdate b u k = some v := by
  unfold dupdate
  rw [h]

theorem dupdate_none {b u : PDict} {k : String} (h : u k = none) :
    dupdate b u k = b k := by
  unfold dupdate
  rw [h]

theorem dupdate_isSome {b u : PDict} {k : String} (h : (b k).isSome) :
    (dupdate b u k).isSome := by
  unfold dupdate
  cases hu : u k <;> simp [h]

theorem compute_length (eng : Engine CP RES POW) (toDict : P → PDict)
    (wd : Bool) (p : P) (st : CambState P CP RES POW) :
    (camb.compute eng toDict wd p st).st.states.length =
      st.states.length := by
  cases hm : firstMatch (fun s => s.params == some p) st.states with
  | some i =>
    cases wd with
    | true =>
      cases hd : (st.states[i]?).bind Slot.derived with
      | some L => simp [camb.compute, hm, hd, touch_length]
      | none => simp [camb.compute, hm, hd]
    | false => simp [camb.compute, hm, touch_length]
  | none =>
    cases hsp : eng.set_params (dupdate (dupdate st.fixed (toDict p))
        st.precision) with
    | error e => simp [camb.compute, camb.set, hm, hsp, updSlot_length]
    | ok cp =>
      cases hgr : eng.get_results cp with
      | error e =>
        simp [camb.compute, camb.set, hm, hsp, hgr, updSlot_length]
      | ok res =>
        cases wd with
        | false =>
          simp [camb.compute, camb.set, hm, hsp, hgr, touch_length,
            updSlot_length]
        | true =>
          cases hgd : camb.get_derived eng st.derivedNames cp with
          | error e =>
            simp [camb.compute, camb.set, hm, hsp, hgr, hgd, touch_length,
              updSlot_length]
          | ok L =>
            simp [camb.compute, camb.set, hm, hsp, hgr, hgd, touch_length,
              updSlot_length]

theorem lasts_fixedset (st : CambState P CP RES POW) (args : PDict) :
    (CambState.lasts { st with fixed := args }) = st.lasts := rfl

theorem lasts_upd_params (st : CambState P CP RES POW) (i : Nat)
    (v : Option P) :
    (updSlot st i (fun s => { s with params := v })).lasts = st.lasts :=
  lasts_updSlot_keep _ _ (fun _ => rfl)

theorem lasts_upd_CAMBparams (st : CambState P CP RES POW) (i : Nat)
    (v : Option CP) :
    (updSlot st i (fun s => { s with CAMBparams := v })).lasts = st.lasts :=
  lasts_updSlot_keep _ _ (fun _ => rfl)

theorem lasts_upd_CAMBresults (st : CambState P CP RES POW) (i : Nat)
    (v : Option RES) :
    (updSlot st i (fun s => { s with CAMBresults := v })).lasts =
      st.lasts :=
  lasts_updSlot_keep _ _ (fun _ => rfl)

theorem lasts_upd_powers (st : CambState P CP RES POW) (i : Nat)
    (v : Option POW) :
    (updSlot st i (fun s => { s with powers := v })).lasts = st.lasts :=
  lasts_updSlot_keep _ _ (fun _ => rfl)

theorem lasts_upd_derived (st : CambState P CP RES POW) (i : Nat)
    (v : Option (List Int)) :
    (updSlot st i (fun s => { s with derived := v })).lasts = st.lasts :=
  lasts_updSlot_keep _ _ (fun _ => rfl)

theorem set_ok_spec (eng : Engine CP RES POW) (toDict : P → PDict) (p : P)
    (i : Nat) (st : CambState P CP RES POW) {cp : CP}
    {st1 : CambState P CP RES POW}
    (h : camb.set eng toDict p i st = (Except.ok cp, st1)) :
    st1.states[i]? = (st.states[i]?).map
      (fun s => { s with params := some p, CAMBparams := some cp }) ∧
    st1.states.length = st.states.length ∧ st1.lasts = st.lasts ∧
    st1.fixed = dupdate (dupdate st.fixed (toDict p)) st.precision ∧
    st1.derivedNames = st.derivedNames ∧ st1.precision = st.precision ∧
    (∀ j, j ≠ i → st1.states[j]? = st.states[j]?) := by
  unfold camb.set at h
  cases hsp : eng.set_params (dupdate (dupdate st.fixed (toDict p))
      st.precision) with
  | error e =>
    simp only [hsp] at h
    exact absurd h (by simp)
  | ok cp2 =>
    simp only [hsp] at h
    simp only [Prod.mk.injEq, Except.ok.injEq] at h
    obtain ⟨rfl, rfl⟩ := h
    refine ⟨?_, ?_, ?_, ?_, ?_, ?_, ?_⟩
    · by_cases hi : i < st.states.length
      · rw [updSlot_getElem?_self _ _ _ (by simpa [updSlot_length] using hi),
          updSlot_getElem?_self _ _ _ (by simpa using hi)]
        simp only [Option.map_map]
        cases st.states[i]? <;> rfl
      · rw [List.getElem?_eq_none (l := st.states) (by omega), Option.map_none']
        rw [List.getElem?_eq_none]
        rw [updSlot_length, updSlot_length]
        simpa using hi
    · rw [updSlot_length, updSlot_length]
    · rw [lasts_upd_CAMBparams, lasts_upd_params]
      exact rfl
    · rw [updSlot_fixed, updSlot_fixed]
    · rw [updSlot_derivedNames, updSlot_derivedNames]
    · rw [updSlot_precision, updSlot_precision]
    · intro j hj
      rw [updSlot_getElem?_ne _ _ _ hj, updSlot_getElem?_ne _ _ _ hj]

theorem set_err_spec (eng : Engine CP RES POW) (toDict : P → PDict) (p : P)
    (i : Nat) (st : CambState P CP RES POW) {e : CErr}
    {st1 : CambState P CP RES POW}
    (h : camb.set eng toDict p i st = (Except.error e, st1)) :
    st1.states.length = st.states.length ∧ st1.lasts = st.lasts ∧
    st1.fixed = dupdate (dupdate st.fixed (toDict p)) st.precision ∧
    st1.states[i]? =
      (st.states[i]?).map (fun s => { s with params := some p }) := by
  unfold camb.set at h
  cases hsp : eng.set_params (dupdate (dupdate st.fixed (toDict p))
      st.precision) with
  | ok cp =>
    simp only [hsp] at h
    exact absurd h (by simp)
  | error e2 =>
    simp only [hsp] at h
    simp only [Prod.mk.injEq, Except.error.injEq] at h
    obtain ⟨rfl, rfl⟩ := h
    refine ⟨by rw [updSlot_length], ?_, updSlot_fixed _ _ _, ?_⟩
    · rw [lasts_upd_params]
      exact rfl
    by_cases hi : i < st.states.length
    · rw [updSlot_getElem?_self _ _ _ (by simpa using hi)]
    · rw [List.getElem?_eq_none (l := st.states) (by omega), Option.map_none']
      rw [List.getElem?_eq_none]
      rw [updSlot_length]
      simpa using hi

theorem compute_lasts_cases (eng : Engine CP RES POW) (toDict : P → PDict)
    (wd : Bool) (p : P) (st : CambState P CP RES POW)
    (hne : st.states ≠ []) :
    ((camb.compute eng toDict wd p st).err ≠ none ∧
     (camb.compute eng toDict wd p st).st.lasts = st.lasts) ∨
    ((camb.compute eng toDict wd p st).err = none ∧
     (camb.compute eng toDict wd p st).i_state < st.states.length ∧
     (camb.compute eng toDict wd p st).st.lasts =
       (st.lasts.map (fun t => t - listMax st.lasts)).set
         (camb.compute eng toDict wd p st).i_state 1) := by
  have hlne : st.lasts ≠ [] := by
    intro hempty
    exact hne (by simpa [CambState.lasts] using hempty)
  cases hm : firstMatch (fun s => s.params == some p) st.states with
  | some i =>
    have hi : i < st.states.length := firstMatch_lt_length hm
    cases wd with
    | true =>
      cases hd : (st.states[i]?).bind Slot.derived with
      | some L =>
        right
        simp only [camb.compute, hm, hd, eq_self_iff_true, if_true]
        exact ⟨by trivial, hi, lasts_touch st st.lasts hi⟩
      | none =>
        left
        simp [camb.compute, hm, hd]
    | false =>
      right
      simp only [camb.compute, hm, Bool.false_eq_true, if_false]
      exact ⟨by trivial, hi, lasts_touch st st.lasts hi⟩
  | none =>
    have hi : idxOfMin st.lasts < st.states.length := by
      rw [← lasts_length st]
      exact idxOfVal_lt_length (listMin_mem hlne)
    rcases hsc : camb.set eng toDict p (idxOfMin st.lasts) st with ⟨exc, st1⟩
    cases exc with
    | error e =>
      left
      simp only [camb.compute, hm, hsc]
      exact ⟨by simp, (set_err_spec eng toDict p _ st hsc).2.1⟩
    | ok cp =>
      obtain ⟨hslot, hlen1, hlasts1, hfix1, hnames1, hprec1, hother1⟩ :=
        set_ok_spec eng toDict p _ st hsc
      cases hgr : eng.get_results cp with
      | error e =>
        left
        simp only [camb.compute, hm, hsc, hgr]
        exact ⟨by simp, hlasts1⟩
      | ok res =>
        cases wd with
        | false =>
          right
          simp only [camb.compute, hm, hsc, hgr, Bool.false_eq_true,
            if_false]
          refine ⟨by trivial, hi, ?_⟩
          rw [lasts_touch _ st.lasts
            (by simp only [updSlot_length, hlen1]; exact hi),
            lasts_upd_powers, lasts_upd_CAMBresults, hlasts1]
        | true =>
          cases hgd : camb.get_derived eng st.derivedNames cp with
          | error e =>
            left
            simp only [camb.compute, hm, hsc, hgr, hgd, eq_self_iff_true,
              if_true]
            exact ⟨by simp, by
              rw [lasts_upd_powers, lasts_upd_CAMBresults, hlasts1]⟩
          | ok L =>
            right
            simp only [camb.compute, hm, hsc, hgr, hgd, eq_self_iff_true,
              if_true]
            refine ⟨by trivial, hi, ?_⟩
            rw [lasts_touch _ st.lasts (by
              simp only [updSlot_length, hlen1]; exact hi),
              lasts_upd_derived, lasts_upd_powers, lasts_upd_CAMBresults,
              hlasts1]

theorem touchedLasts_le (l : List Int) (w : Nat) :
    ∀ t ∈ (l.map (fun x => x - listMax l)).set w 1, t ≤ 1 := by
  intro t ht
  rcases List.mem_or_eq_of_mem_set ht with h | rfl
  · obtain ⟨x, hx, rfl⟩ := List.mem_map.mp h
    have hle := le_listMax hx
    omega
  · exact le_refl 1

theorem touchedLasts_get_self (l : List Int) {w : Nat} (hw : w < l.length) :
    ((l.map (fun x => x - listMax l)).set w 1)[w]? = some 1 :=
  List.getElem?_set_eq_of_lt 1 (by simpa using hw)

theorem touchedLasts_get_ne (l : List Int) {w j : Nat} (hj : j ≠ w) :
    ((l.map (fun x => x - listMax l)).set w 1)[j]? =
      (l[j]?).map (fun x => x - listMax l) := by
  rw [List.getElem?_set_ne (Ne.symm hj), List.getElem?_map]

theorem touchedLasts_max (l : List Int) {w : Nat} (hw : w < l.length) :
    listMax ((l.map (fun x => x - listMax l)).set w 1) = 1 := by
  have h1 : (1 : Int) ∈ (l.map (fun x => x - listMax l)).set w 1 :=
    List.getElem?_mem (touchedLasts_get_self l hw)
  exact le_antisymm
    (touchedLasts_le l w _ (listMax_mem (List.ne_nil_of_mem h1)))
    (le_listMax h1)

theorem touchedLasts_idxOfMax (l : List Int) {w : Nat}
    (hw : w < l.length) :
    idxOfMax ((l.map (fun x => x - listMax l)).set w 1) = w := by
  unfold idxOfMax
  rw [touchedLasts_max l hw]
  apply idxOfVal_first (touchedLasts_get_self l hw)
  intro j hj
  rw [touchedLasts_get_ne l (show j ≠ w by omega)]
  intro hcontra
  rw [Option.map_eq_some'] at hcontra
  obtain ⟨x, hx, hx1⟩ := hcontra
  have := le_listMax (List.getElem?_mem hx)
  omega

theorem touchedLasts_nodup (l : List Int) (w : Nat) (h : l.Nodup) :
    ((l.map (fun x => x - listMax l)).set w 1).Nodup := by
  rw [List.nodup_iff_getElem?_ne_getElem?] at h ⊢
  intro i j hij hjlen
  have hjl : j < l.length := by simpa using hjlen
  have hil : i < l.length := lt_trans hij hjl
  by_cases hiw : i = w
  · subst hiw
    rw [touchedLasts_get_self l hil,
      touchedLasts_get_ne l (show j ≠ i by omega),
      List.getElem?_eq_getElem hjl]
    have := le_listMax (List.getElem_mem hjl)
    simp only [Option.map_some', Ne, Option.some.injEq]
    omega
  · by_cases hjw : j = w
    · subst hjw
      rw [touchedLasts_get_self l hjl, touchedLasts_get_ne l hiw,
        List.getElem?_eq_getElem hil]
      have := le_listMax (List.getElem_mem hil)
      simp only [Option.map_some', Ne, Option.some.injEq]
      omega
    · rw [touchedLasts_get_ne l hiw, touchedLasts_get_ne l hjw,
        List.getElem?_eq_getElem hil, List.getElem?_eq_getElem hjl]
      have hne := h i j hij hjl
      rw [List.getElem?_eq_getElem hil, List.getElem?_eq_getElem hjl] at hne
      simp only [Option.map_some', Ne, Option.some.injEq] at hne ⊢
      omega

theorem compute_ok_slot (eng : Engine CP RES POW) (toDict : P → PDict)
    (wd : Bool) (p : P) (st : CambState P CP RES POW)
    (hne : st.states ≠ [])
    (hok : (camb.compute eng toDict wd p st).err = none) :
    (camb.compute eng toDict wd p st).i_state < st.states.length ∧
    ∃ s, ((camb.compute eng toDict wd p st).st.states[
        (camb.compute eng toDict wd p st).i_state]?) = some s ∧
      s.params = some p ∧ s.last = 1 := by
  have hlne : st.lasts ≠ [] := fun hempty =>
    hne (by simpa [CambState.lasts] using hempty)
  cases hm : firstMatch (fun s => s.params == some p) st.states with
  | some i =>
    have hi : i < st.states.length := firstMatch_lt_length hm
    obtain ⟨s0, hs0, hps0⟩ := firstMatch_spec hm
    have hparams : s0.params = some p := by simpa using hps0
    cases wd with
    | true =>
      cases hd : (st.states[i]?).bind Slot.derived with
      | none => simp [camb.compute, hm, hd] at hok
      | some L =>
        simp only [camb.compute, hm, hd, eq_self_iff_true, if_true]
        refine ⟨hi, { s0 with last := 1 }, ?_, hparams, rfl⟩
        rw [touch_getElem?_self st st.lasts hi, hs0]
        rfl
    | false =>
      simp only [camb.compute, hm, Bool.false_eq_true, if_false]
      refine ⟨hi, { s0 with last := 1 }, ?_, hparams, rfl⟩
      rw [touch_getElem?_self st st.lasts hi, hs0]
      rfl
  | none =>
    have hi : idxOfMin st.lasts < st.states.length := by
      rw [← lasts_length st]
      exact idxOfVal_lt_length (listMin_mem hlne)
    rcases hsc : camb.set eng toDict p (idxOfMin st.lasts) st with ⟨exc, st1⟩
    cases exc with
    | error e => simp [camb.compute, hm, hsc] at hok
    | ok cp =>
      obtain ⟨hslot, hlen1, hlasts1, hfix1, hnames1, hprec1, hother1⟩ :=
        set_ok_spec eng toDict p _ st hsc
      obtain ⟨s0, hs0⟩ : ∃ s0, st.states[idxOfMin st.lasts]? = some s0 :=
        ⟨_, List.getElem?_eq_getElem hi⟩
      cases hgr : eng.get_results cp with
      | error e => simp [camb.compute, hm, hsc, hgr] at hok
      | ok res =>
        cases wd with
        | false =>
          simp only [camb.compute, hm, hsc, hgr, Bool.false_eq_true,
            if_false]
          refine ⟨hi, ⟨some cp, some res,
            some (eng.get_cmb_power_spectra res cp), some p, s0.derived, 1⟩,
            ?_, rfl, rfl⟩
          rw [touch_getElem?_self _ st.lasts
              (by simp only [updSlot_length, hlen1]; exact hi),
            updSlot_getElem?_self _ _ _
              (by simp only [updSlot_length, hlen1]; exact hi),
            updSlot_getElem?_self _ _ _ (by simp only [hlen1]; exact hi),
            hslot, hs0]
          rfl
        | true =>
          cases hgd : camb.get_derived eng st.derivedNames cp with
          | error e => simp [camb.compute, hm, hsc, hgr, hgd] at hok
          | ok L =>
            simp only [camb.compute, hm, hsc, hgr, hgd, eq_self_iff_true,
              if_true]
            refine ⟨hi, ⟨some cp, some res,
              some (eng.get_cmb_power_spectra res cp), some p, some L, 1⟩,
              ?_, rfl, rfl⟩
            rw [touch_getElem?_self _ st.lasts
                (by simp only [updSlot_length, hlen1]; exact hi),
              updSlot_getElem?_self _ _ _
                (by simp only [updSlot_length, hlen1]; exact hi),
              updSlot_getElem?_self _ _ _
                (by simp only [updSlot_length, hlen1]; exact hi),
              updSlot_getElem?_self _ _ _ (by simp only [hlen1]; exact hi),
              hslot, hs0]
            rfl

theorem compute_miss_fixed (eng : Engine CP RES POW) (toDict : P → PDict)
    (wd : Bool) (p : P) (st : CambState P CP RES POW)
    (hm : firstMatch (fun s => s.params == some p) st.states = none) :
    (camb.compute eng toDict wd p st).st.fixed =
      dupdate (dupdate st.fixed (toDict p)) st.precision := by
  rcases hsc : camb.set eng toDict p (idxOfMin st.lasts) st with ⟨exc, st1⟩
  cases exc with
  | error e =>
    simp only [camb.compute, hm, hsc]
    exact (set_err_spec eng toDict p _ st hsc).2.2.1
  | ok cp =>
    have hfix1 : st1.fixed = dupdate (dupdate st.fixed (toDict p))
        st.precision := (set_ok_spec eng toDict p _ st hsc).2.2.2.1
    cases hgr : eng.get_results cp with
    | error e =>
      simp only [camb.compute, hm, hsc, hgr]
      exact hfix1
    | ok res =>
      cases wd with
      | false =>
        simp only [camb.compute, hm, hsc, hgr, Bool.false_eq_true, if_false]
        rw [touch_fixed, updSlot_fixed, updSlot_fixed, hfix1]
      | true =>
        cases hgd : camb.get_derived eng st.derivedNames cp with
        | error e =>
          simp only [camb.compute, hm, hsc, hgr, hgd, eq_self_iff_true,
            if_true]
          rw [updSlot_fixed, updSlot_fixed, hfix1]
        | ok L =>
          simp only [camb.compute, hm, hsc, hgr, hgd, eq_self_iff_true,
            if_true]
          rw [touch_fixed, updSlot_fixed, updSlot_fixed, updSlot_fixed,
            hfix1]

theorem compute_hit_fixed (eng : Engine CP RES POW) (toDict : P → PDict)
    (wd : Bool) (p : P) (st : CambState P CP RES POW) {i : Nat}
    (hm : firstMatch (fun s => s.params == some p) st.states = some i) :
    (camb.compute eng toDict wd p st).st.fixed = st.fixed := by
  cases wd with
  | true =>
    cases hd : (st.states[i]?).bind Slot.derived with
    | some L => simp [camb.compute, hm, hd, touch_fixed]
    | none => simp [camb.compute, hm, hd]
  | false => simp [camb.compute, hm, touch_fixed]

theorem compute_fixed_isSome (eng : Engine CP RES POW) (toDict : P → PDict)
    (wd : Bool) (p : P) (st : CambState P CP RES POW) (k : String)
    (h : (st.fixed k).isSome) :
    ((camb.compute eng toDict wd p st).st.fixed k).isSome := by
  cases hm : firstMatch (fun s => s.params == some p) st.states with
  | some i => rw [compute_hit_fixed eng toDict wd p st hm]; exact h
  | none =>
    rw [compute_miss_fixed eng toDict wd p st hm]
    exact dupdate_isSome (dupdate_isSome h)

theorem computeSeq_fixed_isSome (eng : Engine CP RES POW)
    (toDict : P → PDict) (wd : Bool) (k : String) :
    ∀ (ps : List P) (st : CambState P CP RES POW),
      (st.fixed k).isSome → ((computeSeq eng toDict wd ps st).fixed k).isSome := by
  intro ps
  induction ps with
  | nil => intro st h; exact h
  | cons q t ih =>
    intro st h
    exact ih _ (compute_fixed_isSome eng toDict wd q st k h)

theorem computeSeq_cons (eng : Engine CP RES POW) (toDict : P → PDict)
    (wd : Bool) (q : P) (t : List P) (st : CambState P CP RES POW) :
    computeSeq eng toDict wd (q :: t) st =
      computeSeq eng toDict wd t (camb.compute eng toDict wd q st).st := rfl

theorem computeSeq_length (eng : Engine CP RES POW) (toDict : P → PDict)
    (wd : Bool) :
    ∀ (ps : List P) (st : CambState P CP RES POW),
      (computeSeq eng toDict wd ps st).states.length = st.states.length := by
  intro ps
  induction ps with
  | nil => intro st; rfl
  | cons q t ih =>
    intro st
    rw [computeSeq_cons, ih, compute_length]

theorem compute_preserves_nodup (eng : Engine CP RES POW)
    (toDict : P → PDict) (wd : Bool) (p : P)
    (st : CambState P CP RES POW) (hne : st.states ≠ [])
    (h : st.lasts.Nodup) :
    (camb.compute eng toDict wd p st).st.lasts.Nodup := by
  rcases compute_lasts_cases eng toDict wd p st hne with ⟨-, heq⟩ | ⟨-, -, heq⟩
  · rw [heq]; exact h
  · rw [heq]; exact touchedLasts_nodup _ _ h

theorem computeSeq_preserves_nodup (eng : Engine CP RES POW)
    (toDict : P → PDict) (wd : Bool) :
    ∀ (ps : List P) (st : CambState P CP RES POW), st.states ≠ [] →
      st.lasts.Nodup → (computeSeq eng toDict wd ps st).lasts.Nodup := by
  intro ps
  induction ps with
  | nil => intro st _ h; exact h
  | cons q t ih =>
    intro st hne h
    rw [computeSeq_cons]
    refine ih _ ?_ (compute_preserves_nodup eng toDict wd q st hne h)
    have := compute_length eng toDict wd q st
    intro hempty
    rw [hempty] at this
    exact hne (List.eq_nil_of_length_eq_zero this.symm)

theorem paramsView_getElem? (st : CambState P CP RES POW) (j : Nat) :
    (paramsView st)[j]? = (st.states[j]?).map Slot.params := by
  simp [paramsView]

theorem paramsView_length (st : CambState P CP RES POW) :
    (paramsView st).length = st.states.length := List.length_map _ _

theorem firstMatch_params (p : P) :
    ∀ l : List (Slot P CP RES POW),
      firstMatch (fun s => s.params == some p) l =
        firstMatch (fun o => o == some p) (l.map Slot.params) := by
  intro l
  induction l with
  | nil => rfl
  | cons a t ih =>
    rw [List.map_cons, firstMatch, firstMatch, ih]

theorem initialise_lasts (f g : PDict) (nm : List String) :
    (camb.initialise f g nm : CambState P CP RES POW).lasts =
      [0, 0, 0] := rfl

theorem initialise_paramsView (f g : PDict) (nm : List String) :
    paramsView (camb.initialise f g nm : CambState P CP RES POW) =
      [none, none, none] := rfl

theorem initialise_states_ne (f g : PDict) (nm : List String) :
    (camb.initialise f g nm : CambState P CP RES POW).states ≠ [] := by
  simp [camb.initialise]

theorem compute_missOk_spec (E : EngineOk CP RES POW) (toDict : P → PDict)
    (p : P) (st : CambState P CP RES POW) (hne : st.states ≠ [])
    (hm : firstMatch (fun s => s.params == some p) st.states = none) :
    (camb.compute E.toEngine toDict true p st).err = none ∧
    (camb.compute E.toEngine toDict true p st).engineCalled = true ∧
    (camb.compute E.toEngine toDict true p st).i_state = idxOfMin st.lasts ∧
    (camb.compute E.toEngine toDict true p st).derivedOut =
      some (st.derivedNames.zip (LOf E toDict p st)) ∧
    (camb.compute E.toEngine toDict true p st).st.derivedNames =
      st.derivedNames ∧
    (camb.compute E.toEngine toDict true p st).st.states.length =
      st.states.length ∧
    (camb.compute E.toEngine toDict true p st).st.lasts =
      (st.lasts.map (fun t => t - listMax st.lasts)).set
        (idxOfMin st.lasts) 1 ∧
    ((camb.compute E.toEngine toDict true p st).st.states[
        idxOfMin st.lasts]?) =
      (st.states[idxOfMin st.lasts]?).map (fun _ =>
        ⟨some (cpOf E toDict p st), some (resOf E toDict p st),
         some (pwOf E toDict p st), some p, some (LOf E toDict p st), 1⟩) ∧
    (∀ j, j ≠ idxOfMin st.lasts →
      (camb.compute E.toEngine toDict true p st).st.states[j]? =
        (st.states[j]?).map
          (fun s => { s with last := s.last - listMax st.lasts })) := by
  have hi : idxOfMin st.lasts < st.states.length := by
    rw [← lasts_length st]
    exact idxOfVal_lt_length (listMin_mem (fun hempty =>
      hne (by simpa [CambState.lasts] using hempty)))
  simp only [camb.compute, hm, camb.set, toEngine_set_params,
    toEngine_get_results, toEngine_spectra, get_derived_ok,
    eq_self_iff_true, if_true]
  refine ⟨by trivial, by trivial, by trivial, by trivial, ?_, ?_, ?_, ?_, ?_⟩
  · rw [touch_derivedNames, updSlot_derivedNames, updSlot_derivedNames,
      updSlot_derivedNames, updSlot_derivedNames, updSlot_derivedNames]
  · rw [touch_length, updSlot_length, updSlot_length, updSlot_length,
      updSlot_length, updSlot_length]
  · rw [lasts_touch _ st.lasts (by
        simp only [updSlot_length]; exact hi),
      lasts_upd_derived, lasts_upd_powers, lasts_upd_CAMBresults,
      lasts_upd_CAMBparams, lasts_upd_params]
    exact rfl
  · rw [touch_getElem?_self _ st.lasts (by
        simp only [updSlot_length]; exact hi),
      updSlot_getElem?_self _ _ _ (by simp only [updSlot_length]; exact hi),
      updSlot_getElem?_self _ _ _ (by simp only [updSlot_length]; exact hi),
      updSlot_getElem?_self _ _ _ (by simp only [updSlot_length]; exact hi),
      updSlot_getElem?_self _ _ _ (by simp only [updSlot_length]; exact hi),
      updSlot_getElem?_self _ _ _ (by exact hi)]
    show _ = (st.states[idxOfMin st.lasts]?).map _
    cases st.states[idxOfMin st.lasts]? <;> rfl
  · intro j hj
    rw [touch_getElem?_ne _ st.lasts hj, updSlot_getElem?_ne _ _ _ hj,
      updSlot_getElem?_ne _ _ _ hj, updSlot_getElem?_ne _ _ _ hj,
      updSlot_getElem?_ne _ _ _ hj, updSlot_getElem?_ne _ _ _ hj]

theorem compute_missOk_trace (E : EngineOk CP RES POW) (toDict : P → PDict)
    (p : P) (st : CambState P CP RES POW) (hne : st.states ≠ [])
    (hm : firstMatch (fun s => s.params == some p) st.states = none) :
    (camb.compute E.toEngine toDict false p st).err = none ∧
    (camb.compute E.toEngine toDict false p st).engineCalled = true ∧
    (camb.compute E.toEngine toDict false p st).i_state =
      idxOfMin st.lasts ∧
    (camb.compute E.toEngine toDict false p st).st.states.length =
      st.states.length ∧
    (camb.compute E.toEngine toDict false p st).st.lasts =
      (st.lasts.map (fun t => t - listMax st.lasts)).set
        (idxOfMin st.lasts) 1 ∧
    paramsView (camb.compute E.toEngine toDict false p st).st =
      (paramsView st).set (idxOfMin st.lasts) (some p) := by
  have hi : idxOfMin st.lasts < st.states.length := by
    rw [← lasts_length st]
    exact idxOfVal_lt_length (listMin_mem (fun hempty =>
      hne (by simpa [CambState.lasts] using hempty)))
  simp only [camb.compute, hm, camb.set, toEngine_set_params,
    toEngine_get_results, toEngine_spectra, Bool.false_eq_true, if_false]
  refine ⟨by trivial, by trivial, by trivial, ?_, ?_, ?_⟩
  · rw [touch_length, updSlot_length, updSlot_length, updSlot_length,
      updSlot_length]
  · rw [lasts_touch _ st.lasts (by
        simp only [updSlot_length]; exact hi),
      lasts_upd_powers, lasts_upd_CAMBresults, lasts_upd_CAMBparams,
      lasts_upd_params]
    exact rfl
  · apply List.ext_getElem?
    intro j
    by_cases hj : j = idxOfMin st.lasts
    · subst hj
      rw [paramsView_getElem?,
        touch_getElem?_self _ st.lasts (by
          simp only [updSlot_length]; exact hi),
        updSlot_getElem?_self _ _ _
          (by simp only [updSlot_length]; exact hi),
        updSlot_getElem?_self _ _ _
          (by simp only [updSlot_length]; exact hi),
        updSlot_getElem?_self _ _ _
          (by simp only [updSlot_length]; exact hi),
        updSlot_getElem?_self _ _ _ (by exact hi),
        List.getElem?_set_eq_of_lt _ (by
          rw [paramsView_length]; exact hi),
        List.getElem?_eq_getElem hi]
      rfl
    · rw [paramsView_getElem?, touch_getElem?_ne _ st.lasts hj,
        updSlot_getElem?_ne _ _ _ hj, updSlot_getElem?_ne _ _ _ hj,
        updSlot_getElem?_ne _ _ _ hj, updSlot_getElem?_ne _ _ _ hj,
        List.getElem?_set_ne (Ne.symm hj), paramsView_getElem?]
      cases st.states[j]? <;> rfl

end ComputeLemmas

/-! ### The claims -/

/-- Claim C3: after any compute call that completes successfully (from an
arbitrary prior cache state, so after any mix of hits and misses), the slot
the call used stores the key of that call, holds the maximum recency stamp
among all slots, and `current_state` returns exactly that slot. -/
theorem claim_C3_current_slot (eng : Engine CP RES POW)
    (toDict : P → PDict) (wd : Bool) (p : P)
    (st : CambState P CP RES POW) (hne : st.states ≠ [])
    (hok : (camb.compute eng toDict wd p st).err = none) :
    ∃ s, ((camb.compute eng toDict wd p st).st.states[
        (camb.compute eng toDict wd p st).i_state]?) = some s ∧
      s.params = some p ∧
      (∀ t ∈ (camb.compute eng toDict wd p st).st.lasts, t ≤ s.last) ∧
      camb.current_state (camb.compute eng toDict wd p st).st = some s := by
  obtain ⟨hi, s, hs, hp, hlast⟩ := compute_ok_slot eng toDict wd p st hne hok
  rcases compute_lasts_cases eng toDict wd p st hne with
    ⟨hne2, -⟩ | ⟨-, -, hlasts⟩
  · exact absurd hok hne2
  · refine ⟨s, hs, hp, ?_, ?_⟩
    · intro t ht
      rw [hlasts] at ht
      rw [hlast]
      exact touchedLasts_le _ _ t ht
    · unfold camb.current_state
      rw [hlasts, touchedLasts_idxOfMax _ (by rw [lasts_length]; exact hi)]
      exact hs

/-- Witness for C3 at a concrete engine, parameter and fresh cache. -/
theorem claim_C3_current_slot_witness :
    ∃ s, ((camb.compute EW.toEngine toDictW false 5 stW).st.states[
        (camb.compute EW.toEngine toDictW false 5 stW).i_state]?) =
          some s ∧
      s.params = some 5 ∧
      (∀ t ∈ (camb.compute EW.toEngine toDictW false 5 stW).st.lasts,
        t ≤ s.last) ∧
      camb.current_state (camb.compute EW.toEngine toDictW false 5 stW).st =
        some s :=
  claim_C3_current_slot EW.toEngine toDictW false 5 stW (by decide)
    (by decide)

/-- Claim C4, counterexample: on the freshly initialised cache (no
computation has ever occurred), `current_state` does NOT fail — it returns
the first slot, with all fields unset.  This refutes the claim that the
call fails with an `EmptyCache` error and returns no slot (no such error
exists in the code). -/
theorem claim_C4_counterexample :
    camb.current_state stW = some camb.initSlot ∧
    camb.current_state stW ≠ none := by
  constructor
  · rfl
  · intro h
    rw [show camb.current_state stW = some camb.initSlot from rfl] at h
    exact Option.noConfusion h

/-- Claim C4, amended: calling `current_state` before any computation
returns slot 0 (all stamps tie at 0 and the first index wins), whose
fields are all `None` and whose recency stamp is 0; no error is raised. -/
theorem claim_C4_amended (f g : PDict) (nm : List String) :
    camb.current_state (camb.initialise f g nm : CambState P CP RES POW) =
      some camb.initSlot := rfl

/-- Claim C8: announcing an `l_max` requirement stores
`max(value, previously stored value or 0)` under `lmax`; the stored value
never decreases; and announcing 500 then 200 leaves the aggregated value
at 500. -/
theorem claim_C8_lmax_merge :
    (∀ (A B C D : Type) (st : CambState A B C D) (v : Int),
      ∃ st2, camb.needs st [("l_max", v)] = Except.ok st2 ∧
        st2.fixed "lmax" = some (max v ((st.fixed "lmax").getD 0)) ∧
        (st.fixed "lmax").getD 0 ≤ (st2.fixed "lmax").getD 0 ∧
        st2.states = st.states) ∧
    (∃ stc, camb.needs stW [("l_max", 500), ("l_max", 200)] =
        Except.ok stc ∧ stc.fixed "lmax" = some 500) := by
  constructor
  · intro A B C D st v
    refine ⟨_, rfl, ?_, ?_, rfl⟩
    · show dinsert st.fixed "lmax" (max v ((st.fixed "lmax").getD 0))
          "lmax" = _
      simp [dinsert]
    · show (st.fixed "lmax").getD 0 ≤
        (dinsert st.fixed "lmax" (max v ((st.fixed "lmax").getD 0))
          "lmax").getD 0
      simp [dinsert]
  · exact ⟨_, rfl, by decide⟩

/-- Claim C9, counterexample: at the very first compute call an eviction
comparison is made (the call is a miss, so the victim is selected by
comparing the recency stamps), yet at that instant all three slots share
the stamp 0 — distinct slots do NOT hold distinct recency stamps at every
eviction comparison. -/
theorem claim_C9_counterexample :
    (camb.compute EW.toEngine toDictW false 5 stW).engineCalled = true ∧
    stW.lasts = [0, 0, 0] ∧ ¬ stW.lasts.Nodup := by decide

/-- Claim C9, amended: recency stamps can tie while never-used slots
remain (they all start at 0), but pairwise-distinct stamps are preserved
by every compute call, so once the stamps are pairwise distinct they stay
pairwise distinct at every later eviction comparison. -/
theorem claim_C9_amended (eng : Engine CP RES POW) (toDict : P → PDict)
    (wd : Bool) (ps : List P) (st : CambState P CP RES POW)
    (hne : st.states ≠ []) (hnd : st.lasts.Nodup) :
    (computeSeq eng toDict wd ps st).lasts.Nodup :=
  computeSeq_preserves_nodup eng toDict wd ps st hne hnd

/-- Witness for the amended C9: after three distinct misses the stamps are
pairwise distinct, and they remain so across two further calls. -/
theorem claim_C9_amended_witness :
    (computeSeq EW.toEngine toDictW false [4, 1]
      (computeSeq EW.toEngine toDictW false [1, 2, 3] stW)).lasts.Nodup :=
  claim_C9_amended EW.toEngine toDictW false [4, 1]
    (computeSeq EW.toEngine toDictW false [1, 2, 3] stW)
    (by decide) (by decide)

/-- Claim C10: on a cache miss, `compute` mutates the component's fixed
dict itself (`args = self.fixed` aliases it): afterwards it holds every
precision setting, and every sampled value whose key is not overridden by
a precision key; and every key present stays present through any sequence
of subsequent compute calls. -/
theorem claim_C10_fixed_mutation (eng : Engine CP RES POW)
    (toDict : P → PDict) (wd : Bool) (p : P)
    (st : CambState P CP RES POW)
    (hm : firstMatch (fun s => s.params == some p) st.states = none) :
    (∀ k v, st.precision k = some v →
      (camb.compute eng toDict wd p st).st.fixed k = some v) ∧
    (∀ k v, st.precision k = none → toDict p k = some v →
      (camb.compute eng toDict wd p st).st.fixed k = some v) ∧
    (∀ (qs : List P) (k : String),
      (((camb.compute eng toDict wd p st).st.fixed k).isSome) →
      ((computeSeq eng toDict wd qs
        (camb.compute eng toDict wd p st).st).fixed k).isSome) := by
  have hfix := compute_miss_fixed eng toDict wd p st hm
  refine ⟨?_, ?_, ?_⟩
  · intro k v hv
    rw [hfix]
    exact dupdate_some hv
  · intro k v hnone hv
    rw [hfix]
    show dupdate (dupdate st.fixed (toDict p)) st.precision k = some v
    rw [dupdate_none hnone]
    exact dupdate_some hv
  · intro qs k h
    exact computeSeq_fixed_isSome eng toDict wd k qs _ h

/-- Witness for C10 at a concrete miss: the sampled key `"x"` ends up in
the fixed dict and persists. -/
theorem claim_C10_fixed_mutation_witness :
    (∀ k v, stW.precision k = some v →
      (camb.compute EW.toEngine toDictW false 7 stW).st.fixed k = some v) ∧
    (∀ k v, stW.precision k = none → toDictW 7 k = some v →
      (camb.compute EW.toEngine toDictW false 7 stW).st.fixed k = some v) ∧
    (∀ (qs : List Nat) (k : String),
      (((camb.compute EW.toEngine toDictW false 7 stW).st.fixed k).isSome) →
      ((computeSeq EW.toEngine toDictW false qs
        (camb.compute EW.toEngine toDictW false 7 stW).st).fixed
          k).isSome) :=
  claim_C10_fixed_mutation EW.toEngine toDictW false 7 stW (by decide)

/-- Claim C1: starting from any cache state holding no slot for `p`,
computing `p` twice in succession invokes the engine exactly once (the
first call is a miss, the second a hit on the slot whose stored key equals
`p`, with no engine call), and the second call returns derived values and
spectra identical to those produced and stored by the first call. -/
theorem claim_C1_hit_avoids_recomputation (E : EngineOk CP RES POW)
    (toDict : P → PDict) (p : P) (st : CambState P CP RES POW)
    (hne : st.states ≠ [])
    (hfresh : ∀ s ∈ st.states, s.params ≠ some p) :
    (camb.compute E.toEngine toDict true p st).engineCalled = true ∧
    (camb.compute E.toEngine toDict true p st).err = none ∧
    (camb.compute E.toEngine toDict true p (camb.compute E.toEngine toDict true p st).st).engineCalled = false ∧
    (camb.compute E.toEngine toDict true p (camb.compute E.toEngine toDict true p st).st).err = none ∧
    (∃ s, ((camb.compute E.toEngine toDict true p st).st.states[(camb.compute E.toEngine toDict true p (camb.compute E.toEngine toDict true p st).st).i_state]?) = some s ∧
      s.params = some p) ∧
    (camb.compute E.toEngine toDict true p (camb.compute E.toEngine toDict true p st).st).derivedOut = (camb.compute E.toEngine toDict true p st).derivedOut ∧
    ((camb.compute E.toEngine toDict true p (camb.compute E.toEngine toDict true p st).st).st.states[(camb.compute E.toEngine toDict true p (camb.compute E.toEngine toDict true p st).st).i_state]?).map Slot.powers =
      ((camb.compute E.toEngine toDict true p st).st.states[(camb.compute E.toEngine toDict true p st).i_state]?).map Slot.powers ∧
    ((camb.compute E.toEngine toDict true p (camb.compute E.toEngine toDict true p st).st).st.states[(camb.compute E.toEngine toDict true p (camb.compute E.toEngine toDict true p st).st).i_state]?).map Slot.derived =
      ((camb.compute E.toEngine toDict true p st).st.states[(camb.compute E.toEngine toDict true p st).i_state]?).map Slot.derived := by
  have hm1 : firstMatch (fun s => s.params == some p) st.states = none := by
    rw [firstMatch_eq_none_iff]
    intro s hs
    simpa using hfresh s hs
  obtain ⟨h1err, h1eng, h1i, h1dout, h1names, h1len, h1lasts, h1slot,
    h1other⟩ := compute_missOk_spec E toDict p st hne hm1
  have hi1 : idxOfMin st.lasts < st.states.length := by
    rw [← lasts_length st]
    refine idxOfVal_lt_length (listMin_mem ?_)
    intro hempty
    exact hne (by simpa [CambState.lasts] using hempty)
  obtain ⟨s0, hs0⟩ : ∃ s0, st.states[idxOfMin st.lasts]? = some s0 :=
    ⟨_, List.getElem?_eq_getElem hi1⟩
  have h1slot2 : ((camb.compute E.toEngine toDict true p st).st.states[idxOfMin st.lasts]?) =
      some ⟨some (cpOf E toDict p st), some (resOf E toDict p st),
        some (pwOf E toDict p st), some p, some (LOf E toDict p st), 1⟩ := by
    rw [h1slot, hs0]
    rfl
  have hm2 : firstMatch (fun s => s.params == some p) (camb.compute E.toEngine toDict true p st).st.states =
      some (idxOfMin st.lasts) := by
    apply firstMatch_eq_some_of h1slot2 (by simp)
    intro j b hj hb
    have hjne : j ≠ idxOfMin st.lasts := Nat.ne_of_lt hj
    rw [h1other j hjne, Option.map_eq_some'] at hb
    obtain ⟨s, hsj, rfl⟩ := hb
    simpa using hfresh s (List.getElem?_mem hsj)
  have hd2 : (((camb.compute E.toEngine toDict true p st).st.states[idxOfMin st.lasts]?).bind Slot.derived) =
      some (LOf E toDict p st) := by
    rw [h1slot2]
    rfl
  have heq2 := compute_hit_eq E.toEngine toDict p (camb.compute E.toEngine toDict true p st).st hm2 hd2
  refine ⟨h1eng, h1err, ?_, ?_, ?_, ?_, ?_, ?_⟩
  · rw [heq2]
  · rw [heq2]
  · rw [heq2]
    exact ⟨_, h1slot2, rfl⟩
  · simp only [heq2]
    rw [h1names, h1dout]
  · simp only [heq2]
    rw [touch_getElem?_self _ _ (by rw [h1len]; exact hi1), h1slot2, h1i,
      h1slot2]
    rfl
  · simp only [heq2]
    rw [touch_getElem?_self _ _ (by rw [h1len]; exact hi1), h1slot2, h1i,
      h1slot2]
    rfl

/-- Witness for C1 at a concrete engine and fresh cache. -/
theorem claim_C1_hit_avoids_recomputation_witness :
    (camb.compute EW.toEngine toDictW true 3 stW).engineCalled = true ∧
    (camb.compute EW.toEngine toDictW true 3 stW).err = none ∧
    (camb.compute EW.toEngine toDictW true 3 (camb.compute EW.toEngine toDictW true 3 stW).st).engineCalled = false ∧
    (camb.compute EW.toEngine toDictW true 3 (camb.compute EW.toEngine toDictW true 3 stW).st).err = none ∧
    (∃ s, ((camb.compute EW.toEngine toDictW true 3 stW).st.states[(camb.compute EW.toEngine toDictW true 3 (camb.compute EW.toEngine toDictW true 3 stW).st).i_state]?) = some s ∧
      s.params = some 3) ∧
    (camb.compute EW.toEngine toDictW true 3 (camb.compute EW.toEngine toDictW true 3 stW).st).derivedOut = (camb.compute EW.toEngine toDictW true 3 stW).derivedOut ∧
    ((camb.compute EW.toEngine toDictW true 3 (camb.compute EW.toEngine toDictW true 3 stW).st).st.states[(camb.compute EW.toEngine toDictW true 3 (camb.compute EW.toEngine toDictW true 3 stW).st).i_state]?).map Slot.powers =
      ((camb.compute EW.toEngine toDictW true 3 stW).st.states[(camb.compute EW.toEngine toDictW true 3 stW).i_state]?).map Slot.powers ∧
    ((camb.compute EW.toEngine toDictW true 3 (camb.compute EW.toEngine toDictW true 3 stW).st).st.states[(camb.compute EW.toEngine toDictW true 3 (camb.compute EW.toEngine toDictW true 3 stW).st).i_state]?).map Slot.derived =
      ((camb.compute EW.toEngine toDictW true 3 stW).st.states[(camb.compute EW.toEngine toDictW true 3 stW).i_state]?).map Slot.derived :=
  claim_C1_hit_avoids_recomputation EW toDictW 3 stW (by decide)
    (by decide)

/-- Claim C5 fails on the code (code bug): after three successful
computations for keys 1, 2, 3, a fourth compute for key 4 whose engine
computation phase fails (an `EngineComputationError`) leaves the evicted
victim slot with its key overwritten to 4 while its results artifact and
raw spectra are still those produced for key 1 (`set` stores the key
before the engine runs, and the abort leaves it there).  A subsequent
compute with the failing assignment 4 therefore HITS this poisoned slot:
the engine is not invoked again and the spectra produced for key 1 are
returned as if they belonged to key 4. -/
theorem claim_C5_code_bug :
    (((computeSeq EBad toDictW false [1, 2, 3] stW).states[0]?).map (fun s => (s.params, s.powers)) =
      some (some 1, some 1)) ∧
    (camb.compute EBad toDictW false 4 (computeSeq EBad toDictW false [1, 2, 3] stW)).err = some CErr.computation ∧
    (camb.compute EBad toDictW false 4 (computeSeq EBad toDictW false [1, 2, 3] stW)).engineCalled = true ∧
    (((camb.compute EBad toDictW false 4 (computeSeq EBad toDictW false [1, 2, 3] stW)).st.states[0]?).map
      (fun s => (s.params, s.CAMBresults, s.powers)) =
        some (some 4, some 1, some 1)) ∧
    (camb.compute EBad toDictW false 4 (camb.compute EBad toDictW false 4 (computeSeq EBad toDictW false [1, 2, 3] stW)).st).engineCalled = false ∧
    (camb.compute EBad toDictW false 4 (camb.compute EBad toDictW false 4 (computeSeq EBad toDictW false [1, 2, 3] stW)).st).err = none ∧
    (((camb.compute EBad toDictW false 4 (camb.compute EBad toDictW false 4 (computeSeq EBad toDictW false [1, 2, 3] stW)).st).st.states[(camb.compute EBad toDictW false 4 (camb.compute EBad toDictW false 4 (computeSeq EBad toDictW false [1, 2, 3] stW)).st).i_state]?).map
      (fun s => (s.params, s.powers)) = some (some 4, some 1)) := by
  decide

/-- Claim C2: submitting four pairwise-distinct assignments to the fresh
3-slot cache produces four misses whose eviction victims are, in order,
slots 0, 1, 2 and 0 — each time the slot with minimum recency stamp, ties
broken by the lowest index — leaving exactly the 3 slots populated (with
keys `p4`, `p2`, `p3`); the first assignment's slot was evicted, so no
slot stores `p1` and resubmitting `p1` triggers a fresh engine
invocation. -/
theorem claim_C2_capacity_eviction (E : EngineOk CP RES POW)
    (toDict : P → PDict) (p1 p2 p3 p4 : P) (f g : PDict)
    (nm : List String) (h12 : p1 ≠ p2) (h13 : p1 ≠ p3) (h14 : p1 ≠ p4)
    (h23 : p2 ≠ p3) (h24 : p2 ≠ p4) (h34 : p3 ≠ p4) :
    (camb.compute E.toEngine toDict false p1 (camb.initialise f g nm : CambState P CP RES POW)).engineCalled = true ∧ (camb.compute E.toEngine toDict false p1 (camb.initialise f g nm : CambState P CP RES POW)).err = none ∧
    (camb.compute E.toEngine toDict false p1 (camb.initialise f g nm : CambState P CP RES POW)).i_state = 0 ∧
    (camb.compute E.toEngine toDict false p2 (camb.compute E.toEngine toDict false p1 (camb.initialise f g nm : CambState P CP RES POW)).st).engineCalled = true ∧ (camb.compute E.toEngine toDict false p2 (camb.compute E.toEngine toDict false p1 (camb.initialise f g nm : CambState P CP RES POW)).st).err = none ∧
    (camb.compute E.toEngine toDict false p2 (camb.compute E.toEngine toDict false p1 (camb.initialise f g nm : CambState P CP RES POW)).st).i_state = 1 ∧
    (camb.compute E.toEngine toDict false p3 (camb.compute E.toEngine toDict false p2 (camb.compute E.toEngine toDict false p1 (camb.initialise f g nm : CambState P CP RES POW)).st).st).engineCalled = true ∧ (camb.compute E.toEngine toDict false p3 (camb.compute E.toEngine toDict false p2 (camb.compute E.toEngine toDict false p1 (camb.initialise f g nm : CambState P CP RES POW)).st).st).err = none ∧
    (camb.compute E.toEngine toDict false p3 (camb.compute E.toEngine toDict false p2 (camb.compute E.toEngine toDict false p1 (camb.initialise f g nm : CambState P CP RES POW)).st).st).i_state = 2 ∧
    (camb.compute E.toEngine toDict false p4 (camb.compute E.toEngine toDict false p3 (camb.compute E.toEngine toDict false p2 (camb.compute E.toEngine toDict false p1 (camb.initialise f g nm : CambState P CP RES POW)).st).st).st).engineCalled = true ∧ (camb.compute E.toEngine toDict false p4 (camb.compute E.toEngine toDict false p3 (camb.compute E.toEngine toDict false p2 (camb.compute E.toEngine toDict false p1 (camb.initialise f g nm : CambState P CP RES POW)).st).st).st).err = none ∧
    (camb.compute E.toEngine toDict false p4 (camb.compute E.toEngine toDict false p3 (camb.compute E.toEngine toDict false p2 (camb.compute E.toEngine toDict false p1 (camb.initialise f g nm : CambState P CP RES POW)).st).st).st).i_state = 0 ∧
    (camb.compute E.toEngine toDict false p4 (camb.compute E.toEngine toDict false p3 (camb.compute E.toEngine toDict false p2 (camb.compute E.toEngine toDict false p1 (camb.initialise f g nm : CambState P CP RES POW)).st).st).st).st.states.length = 3 ∧
    (∀ s ∈ (camb.compute E.toEngine toDict false p4 (camb.compute E.toEngine toDict false p3 (camb.compute E.toEngine toDict false p2 (camb.compute E.toEngine toDict false p1 (camb.initialise f g nm : CambState P CP RES POW)).st).st).st).st.states, s.params ≠ none) ∧
    (∀ s ∈ (camb.compute E.toEngine toDict false p4 (camb.compute E.toEngine toDict false p3 (camb.compute E.toEngine toDict false p2 (camb.compute E.toEngine toDict false p1 (camb.initialise f g nm : CambState P CP RES POW)).st).st).st).st.states, s.params ≠ some p1) ∧
    (camb.compute E.toEngine toDict false p1 (camb.compute E.toEngine toDict false p4 (camb.compute E.toEngine toDict false p3 (camb.compute E.toEngine toDict false p2 (camb.compute E.toEngine toDict false p1 (camb.initialise f g nm : CambState P CP RES POW)).st).st).st).st).engineCalled = true := by
  have hla0 : (camb.initialise f g nm : CambState P CP RES POW).lasts = [0, 0, 0] := initialise_lasts f g nm
  have hpv0 : paramsView (camb.initialise f g nm : CambState P CP RES POW) = [none, none, none] :=
    initialise_paramsView f g nm
  have hlen0 : (camb.initialise f g nm : CambState P CP RES POW).states.length = 3 := rfl
  have hne0 : (camb.initialise f g nm : CambState P CP RES POW).states ≠ [] := initialise_states_ne f g nm
  have hm1 : firstMatch (fun s => s.params == some p1) (camb.initialise f g nm : CambState P CP RES POW).states = none := by
    rw [firstMatch_params]
    show firstMatch (fun o => o == some p1) (paramsView (camb.initialise f g nm : CambState P CP RES POW)) = none
    rw [hpv0]
    simp [firstMatch]
  obtain ⟨he1, hc1, hi1, hlenE1, hlaE1, hpvE1⟩ :=
    compute_missOk_trace E toDict p1 (camb.initialise f g nm : CambState P CP RES POW) hne0 hm1
  have hv1 : (camb.compute E.toEngine toDict false p1 (camb.initialise f g nm : CambState P CP RES POW)).i_state = 0 := by
    rw [hi1, hla0]
    decide
  have hlen1 : (camb.compute E.toEngine toDict false p1 (camb.initialise f g nm : CambState P CP RES POW)).st.states.length = 3 := by rw [hlenE1, hlen0]
  have hne1 : (camb.compute E.toEngine toDict false p1 (camb.initialise f g nm : CambState P CP RES POW)).st.states ≠ [] := by
    intro hempty
    rw [hempty] at hlen1
    exact absurd hlen1 (by simp)
  have hla1 : (camb.compute E.toEngine toDict false p1 (camb.initialise f g nm : CambState P CP RES POW)).st.lasts = [1, 0, 0] := by
    rw [hlaE1, hla0]
    decide
  have hpv1 : paramsView (camb.compute E.toEngine toDict false p1 (camb.initialise f g nm : CambState P CP RES POW)).st = [some p1, none, none] := by
    rw [hpvE1, hpv0, hla0,
      show idxOfMin ([0, 0, 0] : List Int) = 0 from by decide]
    rfl
  have hm2 : firstMatch (fun s => s.params == some p2) (camb.compute E.toEngine toDict false p1 (camb.initialise f g nm : CambState P CP RES POW)).st.states = none := by
    rw [firstMatch_params]
    show firstMatch (fun o => o == some p2) (paramsView (camb.compute E.toEngine toDict false p1 (camb.initialise f g nm : CambState P CP RES POW)).st) = none
    rw [hpv1]
    simp [firstMatch, h12]
  obtain ⟨he2, hc2, hi2, hlenE2, hlaE2, hpvE2⟩ :=
    compute_missOk_trace E toDict p2 (camb.compute E.toEngine toDict false p1 (camb.initialise f g nm : CambState P CP RES POW)).st hne1 hm2
  have hv2 : (camb.compute E.toEngine toDict false p2 (camb.compute E.toEngine toDict false p1 (camb.initialise f g nm : CambState P CP RES POW)).st).i_state = 1 := by
    rw [hi2, hla1]
    decide
  have hlen2 : (camb.compute E.toEngine toDict false p2 (camb.compute E.toEngine toDict false p1 (camb.initialise f g nm : CambState P CP RES POW)).st).st.states.length = 3 := by rw [hlenE2, hlen1]
  have hne2 : (camb.compute E.toEngine toDict false p2 (camb.compute E.toEngine toDict false p1 (camb.initialise f g nm : CambState P CP RES POW)).st).st.states ≠ [] := by
    intro hempty
    rw [hempty] at hlen2
    exact absurd hlen2 (by simp)
  have hla2 : (camb.compute E.toEngine toDict false p2 (camb.compute E.toEngine toDict false p1 (camb.initialise f g nm : CambState P CP RES POW)).st).st.lasts = [0, 1, -1] := by
    rw [hlaE2, hla1]
    decide
  have hpv2 : paramsView (camb.compute E.toEngine toDict false p2 (camb.compute E.toEngine toDict false p1 (camb.initialise f g nm : CambState P CP RES POW)).st).st = [some p1, some p2, none] := by
    rw [hpvE2, hpv1, hla1,
      show idxOfMin ([1, 0, 0] : List Int) = 1 from by decide]
    rfl
  have hm3 : firstMatch (fun s => s.params == some p3) (camb.compute E.toEngine toDict false p2 (camb.compute E.toEngine toDict false p1 (camb.initialise f g nm : CambState P CP RES POW)).st).st.states = none := by
    rw [firstMatch_params]
    show firstMatch (fun o => o == some p3) (paramsView (camb.compute E.toEngine toDict false p2 (camb.compute E.toEngine toDict false p1 (camb.initialise f g nm : CambState P CP RES POW)).st).st) = none
    rw [hpv2]
    simp [firstMatch, h13, h23]
  obtain ⟨he3, hc3, hi3, hlenE3, hlaE3, hpvE3⟩ :=
    compute_missOk_trace E toDict p3 (camb.compute E.toEngine toDict false p2 (camb.compute E.toEngine toDict false p1 (camb.initialise f g nm : CambState P CP RES POW)).st).st hne2 hm3
  have hv3 : (camb.compute E.toEngine toDict false p3 (camb.compute E.toEngine toDict false p2 (camb.compute E.toEngine toDict false p1 (camb.initialise f g nm : CambState P CP RES POW)).st).st).i_state = 2 := by
    rw [hi3, hla2]
    decide
  have hlen3 : (camb.compute E.toEngine toDict false p3 (camb.compute E.toEngine toDict false p2 (camb.compute E.toEngine toDict false p1 (camb.initialise f g nm : CambState P CP RES POW)).st).st).st.states.length = 3 := by rw [hlenE3, hlen2]
  have hne3 : (camb.compute E.toEngine toDict false p3 (camb.compute E.toEngine toDict false p2 (camb.compute E.toEngine toDict false p1 (camb.initialise f g nm : CambState P CP RES POW)).st).st).st.states ≠ [] := by
    intro hempty
    rw [hempty] at hlen3
    exact absurd hlen3 (by simp)
  have hla3 : (camb.compute E.toEngine toDict false p3 (camb.compute E.toEngine toDict false p2 (camb.compute E.toEngine toDict false p1 (camb.initialise f g nm : CambState P CP RES POW)).st).st).st.lasts = [-1, 0, 1] := by
    rw [hlaE3, hla2]
    decide
  have hpv3 : paramsView (camb.compute E.toEngine toDict false p3 (camb.compute E.toEngine toDict false p2 (camb.compute E.toEngine toDict false p1 (camb.initialise f g nm : CambState P CP RES POW)).st).st).st = [some p1, some p2, some p3] := by
    rw [hpvE3, hpv2, hla2,
      show idxOfMin ([0, 1, -1] : List Int) = 2 from by decide]
    rfl
  have hm4 : firstMatch (fun s => s.params == some p4) (camb.compute E.toEngine toDict false p3 (camb.compute E.toEngine toDict false p2 (camb.compute E.toEngine toDict false p1 (camb.initialise f g nm : CambState P CP RES POW)).st).st).st.states = none := by
    rw [firstMatch_params]
    show firstMatch (fun o => o == some p4) (paramsView (camb.compute E.toEngine toDict false p3 (camb.compute E.toEngine toDict false p2 (camb.compute E.toEngine toDict false p1 (camb.initialise f g nm : CambState P CP RES POW)).st).st).st) = none
    rw [hpv3]
    simp [firstMatch, h14, h24, h34]
  obtain ⟨he4, hc4, hi4, hlenE4, hlaE4, hpvE4⟩ :=
    compute_missOk_trace E toDict p4 (camb.compute E.toEngine toDict false p3 (camb.compute E.toEngine toDict false p2 (camb.compute E.toEngine toDict false p1 (camb.initialise f g nm : CambState P CP RES POW)).st).st).st hne3 hm4
  have hv4 : (camb.compute E.toEngine toDict false p4 (camb.compute E.toEngine toDict false p3 (camb.compute E.toEngine toDict false p2 (camb.compute E.toEngine toDict false p1 (camb.initialise f g nm : CambState P CP RES POW)).st).st).st).i_state = 0 := by
    rw [hi4, hla3]
    decide
  have hlen4 : (camb.compute E.toEngine toDict false p4 (camb.compute E.toEngine toDict false p3 (camb.compute E.toEngine toDict false p2 (camb.compute E.toEngine toDict false p1 (camb.initialise f g nm : CambState P CP RES POW)).st).st).st).st.states.length = 3 := by rw [hlenE4, hlen3]
  have hne4 : (camb.compute E.toEngine toDict false p4 (camb.compute E.toEngine toDict false p3 (camb.compute E.toEngine toDict false p2 (camb.compute E.toEngine toDict false p1 (camb.initialise f g nm : CambState P CP RES POW)).st).st).st).st.states ≠ [] := by
    intro hempty
    rw [hempty] at hlen4
    exact absurd hlen4 (by simp)
  have hla4 : (camb.compute E.toEngine toDict false p4 (camb.compute E.toEngine toDict false p3 (camb.compute E.toEngine toDict false p2 (camb.compute E.toEngine toDict false p1 (camb.initialise f g nm : CambState P CP RES POW)).st).st).st).st.lasts = [1, -1, 0] := by
    rw [hlaE4, hla3]
    decide
  have hpv4 : paramsView (camb.compute E.toEngine toDict false p4 (camb.compute E.toEngine toDict false p3 (camb.compute E.toEngine toDict false p2 (camb.compute E.toEngine toDict false p1 (camb.initialise f g nm : CambState P CP RES POW)).st).st).st).st = [some p4, some p2, some p3] := by
    rw [hpvE4, hpv3, hla3,
      show idxOfMin ([-1, 0, 1] : List Int) = 0 from by decide]
    rfl
  have hm5 : firstMatch (fun s => s.params == some p1) (camb.compute E.toEngine toDict false p4 (camb.compute E.toEngine toDict false p3 (camb.compute E.toEngine toDict false p2 (camb.compute E.toEngine toDict false p1 (camb.initialise f g nm : CambState P CP RES POW)).st).st).st).st.states = none := by
    rw [firstMatch_params]
    show firstMatch (fun o => o == some p1) (paramsView (camb.compute E.toEngine toDict false p4 (camb.compute E.toEngine toDict false p3 (camb.compute E.toEngine toDict false p2 (camb.compute E.toEngine toDict false p1 (camb.initialise f g nm : CambState P CP RES POW)).st).st).st).st) = none
    rw [hpv4]
    simp [firstMatch, Ne.symm h14, Ne.symm h12, Ne.symm h13]
  obtain ⟨he5, hc5, hi5, hlenE5, hlaE5, hpvE5⟩ :=
    compute_missOk_trace E toDict p1 (camb.compute E.toEngine toDict false p4 (camb.compute E.toEngine toDict false p3 (camb.compute E.toEngine toDict false p2 (camb.compute E.toEngine toDict false p1 (camb.initialise f g nm : CambState P CP RES POW)).st).st).st).st hne4 hm5
  have hpop : ∀ s ∈ (camb.compute E.toEngine toDict false p4 (camb.compute E.toEngine toDict false p3 (camb.compute E.toEngine toDict false p2 (camb.compute E.toEngine toDict false p1 (camb.initialise f g nm : CambState P CP RES POW)).st).st).st).st.states, s.params ≠ none := by
    intro s hs
    have hmem : s.params ∈ paramsView (camb.compute E.toEngine toDict false p4 (camb.compute E.toEngine toDict false p3 (camb.compute E.toEngine toDict false p2 (camb.compute E.toEngine toDict false p1 (camb.initialise f g nm : CambState P CP RES POW)).st).st).st).st :=
      List.mem_map_of_mem Slot.params hs
    rw [hpv4] at hmem
    simp only [List.mem_cons, List.not_mem_nil, or_false] at hmem
    rcases hmem with h | h | h <;> simp [h]
  have hnp1 : ∀ s ∈ (camb.compute E.toEngine toDict false p4 (camb.compute E.toEngine toDict false p3 (camb.compute E.toEngine toDict false p2 (camb.compute E.toEngine toDict false p1 (camb.initialise f g nm : CambState P CP RES POW)).st).st).st).st.states, s.params ≠ some p1 := by
    intro s hs
    have hmem : s.params ∈ paramsView (camb.compute E.toEngine toDict false p4 (camb.compute E.toEngine toDict false p3 (camb.compute E.toEngine toDict false p2 (camb.compute E.toEngine toDict false p1 (camb.initialise f g nm : CambState P CP RES POW)).st).st).st).st :=
      List.mem_map_of_mem Slot.params hs
    rw [hpv4] at hmem
    simp only [List.mem_cons, List.not_mem_nil, or_false] at hmem
    rcases hmem with h | h | h <;> rw [h] <;>
      simp [Ne.symm h14, Ne.symm h12, Ne.symm h13]
  exact ⟨hc1, he1, hv1, hc2, he2, hv2, hc3, he3, hv3, hc4, he4, hv4,
    hlen4, hpop, hnp1, hc5⟩

/-- Witness for C2 at a concrete engine and four distinct assignments. -/
theorem claim_C2_capacity_eviction_witness :
    (camb.compute EW.toEngine toDictW false 10 (camb.initialise dempty dempty [] : CambState Nat Nat Nat Nat)).engineCalled = true ∧ (camb.compute EW.toEngine toDictW false 10 (camb.initialise dempty dempty [] : CambState Nat Nat Nat Nat)).err = none ∧
    (camb.compute EW.toEngine toDictW false 10 (camb.initialise dempty dempty [] : CambState Nat Nat Nat Nat)).i_state = 0 ∧
    (camb.compute EW.toEngine toDictW false 20 (camb.compute EW.toEngine toDictW false 10 (camb.initialise dempty dempty [] : CambState Nat Nat Nat Nat)).st).engineCalled = true ∧ (camb.compute EW.toEngine toDictW false 20 (camb.compute EW.toEngine toDictW false 10 (camb.initialise dempty dempty [] : CambState Nat Nat Nat Nat)).st).err = none ∧
    (camb.compute EW.toEngine toDictW false 20 (camb.compute EW.toEngine toDictW false 10 (camb.initialise dempty dempty [] : CambState Nat Nat Nat Nat)).st).i_state = 1 ∧
    (camb.compute EW.toEngine toDictW false 30 (camb.compute EW.toEngine toDictW false 20 (camb.compute EW.toEngine toDictW false 10 (camb.initialise dempty dempty [] : CambState Nat Nat Nat Nat)).st).st).engineCalled = true ∧ (camb.compute EW.toEngine toDictW false 30 (camb.compute EW.toEngine toDictW false 20 (camb.compute EW.toEngine toDictW false 10 (camb.initialise dempty dempty [] : CambState Nat Nat Nat Nat)).st).st).err = none ∧
    (camb.compute EW.toEngine toDictW false 30 (camb.compute EW.toEngine toDictW false 20 (camb.compute EW.toEngine toDictW false 10 (camb.initialise dempty dempty [] : CambState Nat Nat Nat Nat)).st).st).i_state = 2 ∧
    (camb.compute EW.toEngine toDictW false 40 (camb.compute EW.toEngine toDictW false 30 (camb.compute EW.toEngine toDictW false 20 (camb.compute EW.toEngine toDictW false 10 (camb.initialise dempty dempty [] : CambState Nat Nat Nat Nat)).st).st).st).engineCalled = true ∧ (camb.compute EW.toEngine toDictW false 40 (camb.compute EW.toEngine toDictW false 30 (camb.compute EW.toEngine toDictW false 20 (camb.compute EW.toEngine toDictW false 10 (camb.initialise dempty dempty [] : CambState Nat Nat Nat Nat)).st).st).st).err = none ∧
    (camb.compute EW.toEngine toDictW false 40 (camb.compute EW.toEngine toDictW false 30 (camb.compute EW.toEngine toDictW false 20 (camb.compute EW.toEngine toDictW false 10 (camb.initialise dempty dempty [] : CambState Nat Nat Nat Nat)).st).st).st).i_state = 0 ∧
    (camb.compute EW.toEngine toDictW false 40 (camb.compute EW.toEngine toDictW false 30 (camb.compute EW.toEngine toDictW false 20 (camb.compute EW.toEngine toDictW false 10 (camb.initialise dempty dempty [] : CambState Nat Nat Nat Nat)).st).st).st).st.states.length = 3 ∧
    (∀ s ∈ (camb.compute EW.toEngine toDictW false 40 (camb.compute EW.toEngine toDictW false 30 (camb.compute EW.toEngine toDictW false 20 (camb.compute EW.toEngine toDictW false 10 (camb.initialise dempty dempty [] : CambState Nat Nat Nat Nat)).st).st).st).st.states, s.params ≠ none) ∧
    (∀ s ∈ (camb.compute EW.toEngine toDictW false 40 (camb.compute EW.toEngine toDictW false 30 (camb.compute EW.toEngine toDictW false 20 (camb.compute EW.toEngine toDictW false 10 (camb.initialise dempty dempty [] : CambState Nat Nat Nat Nat)).st).st).st).st.states, s.params ≠ some 10) ∧
    (camb.compute EW.toEngine toDictW false 10 (camb.compute EW.toEngine toDictW false 40 (camb.compute EW.toEngine toDictW false 30 (camb.compute EW.toEngine toDictW false 20 (camb.compute EW.toEngine toDictW false 10 (camb.initialise dempty dempty [] : CambState Nat Nat Nat Nat)).st).st).st).st).engineCalled = true :=
  claim_C2_capacity_eviction EW toDictW 10 20 30 40 dempty dempty []
    (by decide) (by decide) (by decide) (by decide) (by decide) (by decide)

/-- Index-wise description of the per-channel rescaling loop of `get_cl`. -/
theorem normalizeChannel_getElem? {F : Type} [Field F] (piv T : F)
    (xs : List F) (i : Nat) :
    (normalizeChannel piv T xs)[i]? = (xs[i]?).map (fun c =>
      if i < 2 then c
      else c / (((i : F) * ((i : F) + 1)) / (2 * piv)) *
        (T * 1000000) ^ 2) := by
  unfold normalizeChannel
  rw [List.getElem?_map, List.getElem?_enum]
  cases xs[i]? <;> rfl

/-- Claim C7: `get_cl` is pure with respect to the cache — it deep-copies
the current slot's raw spectra and rescales the copy, so the component
state it leaves behind is exactly the state it was given, and every slot's
cached raw spectra are unchanged for later readers. -/
theorem claim_C7_get_cl_pure {F : Type} [Field F] (piv : F)
    (st : CambState P (CParams F) RES (Powers F)) (cl : Cl F)
    (st2 : CambState P (CParams F) RES (Powers F))
    (h : camb.get_cl piv st = some (cl, st2)) :
    st2 = st ∧
    (∀ j : Nat, (st2.states[j]?).map Slot.powers =
      (st.states[j]?).map Slot.powers) := by
  unfold camb.get_cl at h
  cases hc : camb.current_state st with
  | none =>
    rw [hc] at h
    simp at h
  | some cur =>
    rw [hc] at h
    cases hp : cur.powers with
    | none => simp [hp] at h
    | some pw =>
      cases hcp : cur.CAMBparams with
      | none => simp [hp, hcp] at h
      | some cp =>
        simp only [hp, hcp, Option.some.injEq, Prod.mk.injEq] at h
        obtain ⟨-, rfl⟩ := h
        exact ⟨rfl, fun j => rfl⟩

/-- Witness for C7: on a concrete populated state, `get_cl` returns the
rescaled channels and leaves the state (and each slot's raw spectra)
untouched. -/
theorem claim_C7_get_cl_pure_witness :
    camb.get_cl pivW stCl = some (clW, stCl) ∧ stCl = stCl ∧
    (∀ j : Nat, (stCl.states[j]?).map Slot.powers =
      (stCl.states[j]?).map Slot.powers) := by
  have h : camb.get_cl pivW stCl = some (clW, stCl) := rfl
  exact ⟨h, claim_C7_get_cl_pure pivW stCl clW stCl h⟩

/-- Claim C6: in the output of `get_cl`, every channel value at multipole
`ell ≥ 2` equals the raw value divided by `ell*(ell+1)/(2*pi)` and scaled
by `(TCMB * 1e6)^2`, while the values at `ell = 0` and `ell = 1` are the
raw values unchanged (floats are modelled as exact field elements, so the
equality is exact). -/
theorem claim_C6_normalization {F : Type} [Field F] (piv : F)
    (st : CambState P (CParams F) RES (Powers F)) (cl : Cl F)
    (st2 : CambState P (CParams F) RES (Powers F))
    (cur : Slot P (CParams F) RES (Powers F)) (pw : Powers F)
    (cp : CParams F) (l : Nat) (row : ClRow F)
    (hc : camb.current_state st = some cur)
    (hp : cur.powers = some pw) (hcp : cur.CAMBparams = some cp)
    (h : camb.get_cl piv st = some (cl, st2))
    (hrow : pw.total[l]? = some row) :
    (2 ≤ l →
      cl.tt[l]? = some (row.c0 /
        (((l : F) * ((l : F) + 1)) / (2 * piv)) *
        (cp.TCMB * 1000000) ^ 2) ∧
      cl.te[l]? = some (row.c3 /
        (((l : F) * ((l : F) + 1)) / (2 * piv)) *
        (cp.TCMB * 1000000) ^ 2) ∧
      cl.ee[l]? = some (row.c1 /
        (((l : F) * ((l : F) + 1)) / (2 * piv)) *
        (cp.TCMB * 1000000) ^ 2) ∧
      cl.bb[l]? = some (row.c2 /
        (((l : F) * ((l : F) + 1)) / (2 * piv)) *
        (cp.TCMB * 1000000) ^ 2)) ∧
    (l < 2 →
      cl.tt[l]? = some row.c0 ∧ cl.te[l]? = some row.c3 ∧
      cl.ee[l]? = some row.c1 ∧ cl.bb[l]? = some row.c2) := by
  unfold camb.get_cl at h
  rw [hc] at h
  simp only [hp, hcp] at h
  simp only [Option.some.injEq, Prod.mk.injEq] at h
  obtain ⟨hcl, -⟩ := h
  subst hcl
  constructor
  · intro hl2
    have hn2 : ¬ (l < 2) := by omega
    refine ⟨?_, ?_, ?_, ?_⟩ <;>
      simp only [normalizeChannel_getElem?, List.getElem?_map, hrow,
        Option.map_some', if_neg hn2]
  · intro hl2
    refine ⟨?_, ?_, ?_, ?_⟩ <;>
      simp only [normalizeChannel_getElem?, List.getElem?_map, hrow,
        Option.map_some', if_pos hl2]

/-- Witness for C6 at `ell = 2`, raw TT value 1 and `TCMB = 2.7255`. -/
theorem claim_C6_normalization_witness :
    (2 ≤ 2 →
      clW.tt[2]? = some ((1 : ℚ) /
        ((((2 : Nat) : ℚ) * (((2 : Nat) : ℚ) + 1)) / (2 * pivW)) *
        (TW * 1000000) ^ 2) ∧
      clW.te[2]? = some ((4 : ℚ) /
        ((((2 : Nat) : ℚ) * (((2 : Nat) : ℚ) + 1)) / (2 * pivW)) *
        (TW * 1000000) ^ 2) ∧
      clW.ee[2]? = some ((2 : ℚ) /
        ((((2 : Nat) : ℚ) * (((2 : Nat) : ℚ) + 1)) / (2 * pivW)) *
        (TW * 1000000) ^ 2) ∧
      clW.bb[2]? = some ((3 : ℚ) /
        ((((2 : Nat) : ℚ) * (((2 : Nat) : ℚ) + 1)) / (2 * pivW)) *
        (TW * 1000000) ^ 2)) ∧
    (2 < 2 →
      clW.tt[2]? = some (1 : ℚ) ∧ clW.te[2]? = some (4 : ℚ) ∧
      clW.ee[2]? = some (2 : ℚ) ∧ clW.bb[2]? = some (3 : ℚ)) :=
  claim_C6_normalization pivW stCl clW stCl slotW powersW ⟨TW⟩ 2
    ⟨1, 2, 3, 4⟩ rfl rfl rfl rfl (by decide)

end CambSpec
